import Mathlib

/-!
Verification of the deferred pointer-event queue of `BaseCameraPointersInput`
(src/Cameras/Inputs/BaseCameraPointersInput.ts, ring-buffer-with-coalescing
variant).

The development shallowly embeds:
  * the garbage-collector friendly ring buffer `_EventRingBuffer`
    (push / pop / clear / the `pushed` slot handle),
  * the per-kind event buffers and the shared order buffer `_allEvents`,
  * the capture functions `_addEventsButtonDown` / `_addEventsButtonUp` /
    `_addEventsDoubleTap` / `_addEventsTouch` / `_addEventsMultiTouch`
    (including the coalescing rule and the immediate-dispatch branch taken
    when `_defferCallback` is false),
  * the frame drain `checkInputs`,
  * the raw pointer handler `_pointerInput` and `_onLostFocus` built by
    `attachControl`.

JS numbers that hold coordinates, offsets and pinch distances are modelled
as `Int` (all source computations on them are exact on rationals except the
`|0` int32 truncation, which is modelled explicitly by `or0`).  Mutable
objects referenced by the buffer handle `pushed` are modelled by tracking
the index of the most recently pushed slot (`pushedIdx`): the source only
ever mutates through `pushed` while that reference still denotes the most
recently pushed, not-yet-recycled slot, so index tracking coincides with
JS reference semantics.
-/

/-- The `DEBUG` configuration constant of the source module. -/
def DEBUG : Bool := false

/-- The `COALESCE` configuration constant of the source module. -/
def COALESCE : Bool := true

/-- The `DEFFER_CALLBACK` configuration constant of the source module. -/
def DEFFER_CALLBACK : Bool := true

/-- One tracked pointer contact, mirroring `PointerTouch`
({x, y, pointerId, type}). -/
structure PointerTouch where
  x : Int
  y : Int
  pointerId : Nat
  type : String
deriving DecidableEq

/-- The fields of a DOM `PointerEvent` that the source reads. -/
structure PEvent where
  button : Int
  buttons : Nat
  clientX : Int
  clientY : Int
  movementX : Int
  movementY : Int
  pointerId : Nat
  pointerType : String
  altKey : Bool
  ctrlKey : Bool
  metaKey : Bool
  shiftKey : Bool
deriving DecidableEq

instance : Inhabited PEvent := ⟨⟨0, 0, 0, 0, 0, 0, 0, "", false, false, false, false⟩⟩

/-- Payload stored in `_eventsButtonDown` (`ICameraInputButtonDownEvent`). -/
structure ICameraInputButtonDownEvent where
  event : PEvent
deriving DecidableEq

instance : Inhabited ICameraInputButtonDownEvent := ⟨⟨default⟩⟩

/-- Payload stored in `_eventsButtonUp` (`ICameraInputButtonUpEvent`). -/
structure ICameraInputButtonUpEvent where
  event : PEvent
deriving DecidableEq

instance : Inhabited ICameraInputButtonUpEvent := ⟨⟨default⟩⟩

/-- Payload stored in `_eventsDoubleTap` (`ICameraInputDoubleTapEvent`). -/
structure ICameraInputDoubleTapEvent where
  type : String
deriving DecidableEq

instance : Inhabited ICameraInputDoubleTapEvent := ⟨⟨""⟩⟩

/-- Payload stored in `_eventsTouch` (`ICameraInputTouchEvent`). -/
structure ICameraInputTouchEvent where
  point : Option PointerTouch
  offsetX : Int
  offsetY : Int
deriving DecidableEq

instance : Inhabited ICameraInputTouchEvent := ⟨⟨none, 0, 0⟩⟩

/-- Payload stored in `_eventsMultiTouch` (`ICameraInputMultiTouchEvent`). -/
structure ICameraInputMultiTouchEvent where
  pointA : Option PointerTouch
  pointB : Option PointerTouch
  previousPinchSquaredDistance : Int
  pinchSquaredDistance : Int
  previousMultiTouchPanPosition : Option PointerTouch
  multiTouchPanPosition : Option PointerTouch
deriving DecidableEq

instance : Inhabited ICameraInputMultiTouchEvent := ⟨⟨none, none, 0, 0, none, none⟩⟩

/-- Identity of one of the five per-kind slot buffers.  In the source the
order buffer stores a JS object reference to the per-kind ring buffer and
`checkInputs` compares it with strict equality against the five buffer
fields; the reference is modelled by this tag. -/
inductive EventBufferTag where
  | buttonDown
  | buttonUp
  | doubleTap
  | touch
  | multiTouch
deriving DecidableEq

/-- Entry of the order buffer `_allEvents`, mirroring `IEvent` (the debug
label is omitted; `DEBUG` is false). -/
structure IEvent where
  buffer : EventBufferTag
deriving DecidableEq

instance : Inhabited IEvent := ⟨⟨EventBufferTag.buttonDown⟩⟩

/-- The growable ring buffer `_EventRingBuffer<T>`.  `pushedIdx` models the
`pushed` reference: `some i` means `pushed` currently aliases the container
slot at index `i`; `none` means `pushed` references an object outside the
container (the initial state, and the fresh object installed by `clear`). -/
structure _EventRingBuffer (T : Type) where
  _head : Nat
  _tail : Nat
  _length : Nat
  _container : List T
  pushedIdx : Option Nat
deriving DecidableEq

namespace _EventRingBuffer

variable {T : Type}

/-- The `_maxSize` constant (50). -/
def _maxSize : Nat := 50

/-- The state of a freshly constructed buffer. -/
def empty : _EventRingBuffer T := ⟨0, 0, 0, [], none⟩

/-- Cursor wrap used by `_wrapPointers`: reset to the container start once
the cursor has run off the end. -/
def wrapIdx (m i : Nat) : Nat := if m ≤ i then 0 else i

/-- Translation of `_wrapPointers`: wrap either cursor back to the start of
the container once it runs off the end. -/
def _wrapPointers (b : _EventRingBuffer T) : _EventRingBuffer T :=
  { b with _head := wrapIdx b._container.length b._head
           _tail := wrapIdx b._container.length b._tail }

/-- Translation of `pop`: returns `undefined` (here `none`) on an empty
buffer, otherwise the slot at `_tail` after wrapping, advancing `_tail`. -/
def pop [Inhabited T] (b : _EventRingBuffer T) : Option T × _EventRingBuffer T :=
  if b._length ≤ 0 then
    (none, b)
  else
    let b := _wrapPointers b
    let retVal := (b._container[b._tail]?).getD default
    (some retVal, { b with _tail := b._tail + 1, _length := b._length - 1 })

/-- Body of `push` after the max-size eviction check: wrap the cursors,
then either splice a fresh slot in at `_head` (ring full, or container
still empty) or recycle the existing slot at `_head`.  In both cases
`pushed` ends up referencing the slot at the pre-increment `_head`. -/
def pushCore [Inhabited T] (b : _EventRingBuffer T) : _EventRingBuffer T :=
  let b := _wrapPointers b
  if b._head = b._tail ∧ (0 < b._length ∨ b._container.length = 0) then
    { _head := b._head + 1
      _tail := b._tail + 1
      _length := b._length + 1
      _container := b._container.take b._head ++ default :: b._container.drop b._head
      pushedIdx := some b._head }
  else
    { b with _head := b._head + 1, _length := b._length + 1, pushedIdx := some b._head }

/-- Translation of `push`: evict the oldest entry when at `_maxSize`, then
run the wrap-and-write body. -/
def push [Inhabited T] (b : _EventRingBuffer T) : _EventRingBuffer T :=
  pushCore (if _maxSize ≤ b._length then (b.pop).2 else b)

/-- Mutation through the `pushed` reference (`this.pushed.field = ...`).
When `pushed` aliases a container slot the slot is updated in place; when it
references the detached object installed by `clear` the container is
unaffected (the source never observes such a write). -/
def modifyPushed [Inhabited T] (b : _EventRingBuffer T) (f : T → T) : _EventRingBuffer T :=
  match b.pushedIdx with
  | none => b
  | some i => { b with _container := b._container.set i (f ((b._container[i]?).getD default)) }

/-- Reading through the `pushed` reference (`this.pushed.field`). -/
def readPushed [Inhabited T] (b : _EventRingBuffer T) : Option T :=
  match b.pushedIdx with
  | none => none
  | some i => some ((b._container[i]?).getD default)

/-- Translation of `clear`: cursors and length reset to zero, the container
replaced by a fresh empty array, and `pushed` re-pointed at a fresh object
outside the container. -/
def clear (b : _EventRingBuffer T) : _EventRingBuffer T :=
  { _head := 0, _tail := 0, _length := 0, _container := [], pushedIdx := none }

/-- The logical content of the buffer, oldest first: the `_length` slots
starting at `_tail`, walking the container circularly. -/
def toList [Inhabited T] (b : _EventRingBuffer T) : List T :=
  (List.range b._length).map fun i =>
    (b._container[(b._tail + i) % b._container.length]?).getD default

/-- Well-formedness of a ring buffer, satisfied by every state reachable
from `empty`: the container never exceeds 50 slots, the logical length fits
in the container, both cursors stay within one lazy wrap of the container,
`_head` marks the end of the live region, and while the buffer is nonempty
`pushed` references the most recently pushed live slot. -/
def WF [Inhabited T] (b : _EventRingBuffer T) : Prop :=
  b._container.length ≤ _maxSize ∧
  b._length ≤ b._container.length ∧
  b._tail ≤ b._container.length ∧
  b._head ≤ b._container.length ∧
  (b._container.length ≠ 0 →
    b._head % b._container.length = (b._tail + b._length) % b._container.length) ∧
  (0 < b._length →
    b.pushedIdx = some ((b._tail + (b._length - 1)) % b._container.length))

instance [Inhabited T] [DecidableEq T] (b : _EventRingBuffer T) : Decidable (WF b) := by
  unfold WF; infer_instance

variable [Inhabited T]

/-- Pushing then writing the new slot through the `pushed` handle.  All
deferred-enqueue paths in the source perform exactly this sequence, setting
every field of the slot. -/
def pushSet [Inhabited T] (b : _EventRingBuffer T) (v : T) : _EventRingBuffer T :=
  (b.push).modifyPushed fun _ => v

/-- A sequence of pushes, each immediately populating the new slot. -/
def pushAll (b : _EventRingBuffer T) (vs : List T) : _EventRingBuffer T :=
  vs.foldl (fun acc v => pushSet acc v) b

/-- Popping until the logical length is exhausted. -/
def popAllAux : Nat → _EventRingBuffer T → List T
  | 0, _ => []
  | n + 1, b =>
    match b.pop with
    | (some v, b2) => v :: popAllAux n b2
    | (none, b2) => popAllAux n b2

/-- Popping every element of the buffer, oldest first. -/
def popAll (b : _EventRingBuffer T) : List T := popAllAux b._length b

end _EventRingBuffer

open _EventRingBuffer

/-- One handler invocation, carrying the exact arguments the source passes
to `onButtonDown` / `onButtonUp` / `onDoubleTap` / `onTouch` /
`onMultiTouch`. -/
inductive Dispatch where
  | onButtonDown (evt : PEvent)
  | onButtonUp (evt : PEvent)
  | onDoubleTap (type : String)
  | onTouch (point : Option PointerTouch) (offsetX offsetY : Int)
  | onMultiTouch (pointA pointB : Option PointerTouch)
      (previousPinchSquaredDistance pinchSquaredDistance : Int)
      (previousMultiTouchPanPosition multiTouchPanPosition : Option PointerTouch)
deriving DecidableEq

/-- One externally observable output of the drain loop: a protected
handler call or the matching observable notification. -/
inductive OutEvent where
  | handler (d : Dispatch)
  | observer (d : Dispatch)
deriving DecidableEq

/-- The queue-related state of one `BaseCameraPointersInput` instance: the
five per-kind slot buffers, the shared order buffer `_allEvents`, the
deferral flag, and the `_previousPinchSquaredDistance` /
`_previousMultiTouchPanPosition` fields written by `checkInputs` and read
by `_addEventsMultiTouch`. -/
structure InputState where
  _allEvents : _EventRingBuffer IEvent
  _eventsButtonDown : _EventRingBuffer ICameraInputButtonDownEvent
  _eventsButtonUp : _EventRingBuffer ICameraInputButtonUpEvent
  _eventsDoubleTap : _EventRingBuffer ICameraInputDoubleTapEvent
  _eventsTouch : _EventRingBuffer ICameraInputTouchEvent
  _eventsMultiTouch : _EventRingBuffer ICameraInputMultiTouchEvent
  _defferCallback : Bool
  _previousPinchSquaredDistance : Int
  _previousMultiTouchPanPosition : Option PointerTouch
deriving DecidableEq

/-- The field initialisers of `BaseCameraPointersInput`: all buffers fresh,
deferral as configured by `DEFFER_CALLBACK`, previous pinch state zeroed. -/
def initialInputState : InputState :=
  ⟨empty, empty, empty, empty, empty, empty, DEFFER_CALLBACK, 0, none⟩

/-- The same instance with the deferral flag off: every capture call
invokes its handler immediately instead of enqueueing. -/
def immediateInputState : InputState :=
  ⟨empty, empty, empty, empty, empty, empty, false, 0, none⟩

/-- Translation of `_addEventsButtonDown`. -/
def _addEventsButtonDown (event : PEvent) (s : InputState) : InputState × List Dispatch :=
  if s._defferCallback = false then
    (s, [Dispatch.onButtonDown event])
  else
    let bd := pushSet s._eventsButtonDown ⟨event⟩
    let ae := pushSet s._allEvents ⟨EventBufferTag.buttonDown⟩
    ({ s with _eventsButtonDown := bd, _allEvents := ae }, [])

/-- Translation of `_addEventsButtonUp`. -/
def _addEventsButtonUp (event : PEvent) (s : InputState) : InputState × List Dispatch :=
  if s._defferCallback = false then
    (s, [Dispatch.onButtonUp event])
  else
    let bu := pushSet s._eventsButtonUp ⟨event⟩
    let ae := pushSet s._allEvents ⟨EventBufferTag.buttonUp⟩
    ({ s with _eventsButtonUp := bu, _allEvents := ae }, [])

/-- Translation of `_addEventsDoubleTap`. -/
def _addEventsDoubleTap (eventType : String) (s : InputState) : InputState × List Dispatch :=
  if s._defferCallback = false then
    (s, [Dispatch.onDoubleTap eventType])
  else
    let dt := pushSet s._eventsDoubleTap ⟨eventType⟩
    let ae := pushSet s._allEvents ⟨EventBufferTag.doubleTap⟩
    ({ s with _eventsDoubleTap := dt, _allEvents := ae }, [])

/-- Translation of `_addEventsTouch`, including the coalescing rule: when
the most recently pushed order-buffer entry (still undrained) already tags
the touch buffer, accumulate into its newest slot instead of pushing. -/
def _addEventsTouch (point : Option PointerTouch) (offsetX offsetY : Int)
    (s : InputState) : InputState × List Dispatch :=
  if s._defferCallback = false then
    (s, [Dispatch.onTouch point offsetX offsetY])
  else if COALESCE = true ∧ 0 < s._allEvents._length ∧
      s._allEvents.readPushed = some ⟨EventBufferTag.touch⟩ then
    let tb := s._eventsTouch.modifyPushed fun e =>
      { e with point := point, offsetX := e.offsetX + offsetX, offsetY := e.offsetY + offsetY }
    ({ s with _eventsTouch := tb }, [])
  else
    let tb := pushSet s._eventsTouch ⟨point, offsetX, offsetY⟩
    let ae := pushSet s._allEvents ⟨EventBufferTag.touch⟩
    ({ s with _eventsTouch := tb, _allEvents := ae }, [])

/-- Translation of `_addEventsMultiTouch`.  On coalescing, the pinch
squared distance is accumulated, points and the pan position are
overwritten, and the two `previous*` slot fields are left untouched.  On a
fresh push the two `previous*` slot fields are filled from the instance
fields `_previousPinchSquaredDistance` / `_previousMultiTouchPanPosition`
(not from the parameters of the same name). -/
def _addEventsMultiTouch (pointA pointB : Option PointerTouch)
    (previousPinchSquaredDistance pinchSquaredDistance : Int)
    (previousMultiTouchPanPosition multiTouchPanPosition : Option PointerTouch)
    (s : InputState) : InputState × List Dispatch :=
  if s._defferCallback = false then
    (s, [Dispatch.onMultiTouch pointA pointB previousPinchSquaredDistance
          pinchSquaredDistance previousMultiTouchPanPosition multiTouchPanPosition])
  else if COALESCE = true ∧ 0 < s._allEvents._length ∧
      s._allEvents.readPushed = some ⟨EventBufferTag.multiTouch⟩ then
    let mb := s._eventsMultiTouch.modifyPushed fun e =>
      { e with pointA := pointA, pointB := pointB
               pinchSquaredDistance := e.pinchSquaredDistance + pinchSquaredDistance
               multiTouchPanPosition := multiTouchPanPosition }
    ({ s with _eventsMultiTouch := mb }, [])
  else
    let mb := pushSet s._eventsMultiTouch
      ⟨pointA, pointB, s._previousPinchSquaredDistance, pinchSquaredDistance,
        s._previousMultiTouchPanPosition, multiTouchPanPosition⟩
    let ae := pushSet s._allEvents ⟨EventBufferTag.multiTouch⟩
    ({ s with _eventsMultiTouch := mb, _allEvents := ae }, [])

/-- One iteration plus the rest of the `checkInputs` drain loop, with the
iteration count bounded by explicit fuel (`checkInputs` supplies the order
buffer length, which the proof below shows is exactly enough: each
iteration pops one order entry).  A pop that yields no payload — an empty
order buffer entry, or a tag resolving to an empty slot buffer — is skipped
and the loop continues, mirroring the `continue` branches guarded by
`console.assert` in the source. -/
def drainLoop : Nat → InputState → InputState × List OutEvent
  | 0, s => (s, [])
  | fuel + 1, s =>
    if 0 < s._allEvents._length then
      match s._allEvents.pop with
      | (tagOpt, ae) =>
        let s := { s with _allEvents := ae }
        match tagOpt with
        | none => drainLoop fuel s
        | some tag =>
          match tag.buffer with
          | EventBufferTag.buttonDown =>
            match s._eventsButtonDown.pop with
            | (evOpt, bb) =>
              let s := { s with _eventsButtonDown := bb }
              match evOpt with
              | none => drainLoop fuel s
              | some ev =>
                let d := Dispatch.onButtonDown ev.event
                let r := drainLoop fuel s
                (r.1, OutEvent.handler d :: OutEvent.observer d :: r.2)
          | EventBufferTag.buttonUp =>
            match s._eventsButtonUp.pop with
            | (evOpt, bb) =>
              let s := { s with _eventsButtonUp := bb }
              match evOpt with
              | none => drainLoop fuel s
              | some ev =>
                let d := Dispatch.onButtonUp ev.event
                let r := drainLoop fuel s
                (r.1, OutEvent.handler d :: OutEvent.observer d :: r.2)
          | EventBufferTag.doubleTap =>
            match s._eventsDoubleTap.pop with
            | (evOpt, bb) =>
              let s := { s with _eventsDoubleTap := bb }
              match evOpt with
              | none => drainLoop fuel s
              | some ev =>
                let d := Dispatch.onDoubleTap ev.type
                let r := drainLoop fuel s
                (r.1, OutEvent.handler d :: OutEvent.observer d :: r.2)
          | EventBufferTag.touch =>
            match s._eventsTouch.pop with
            | (evOpt, bb) =>
              let s := { s with _eventsTouch := bb }
              match evOpt with
              | none => drainLoop fuel s
              | some ev =>
                let d := Dispatch.onTouch ev.point ev.offsetX ev.offsetY
                let r := drainLoop fuel s
                (r.1, OutEvent.handler d :: OutEvent.observer d :: r.2)
          | EventBufferTag.multiTouch =>
            match s._eventsMultiTouch.pop with
            | (evOpt, bb) =>
              let s := { s with _eventsMultiTouch := bb }
              match evOpt with
              | none => drainLoop fuel s
              | some ev =>
                let d := Dispatch.onMultiTouch ev.pointA ev.pointB
                  ev.previousPinchSquaredDistance ev.pinchSquaredDistance
                  ev.previousMultiTouchPanPosition ev.multiTouchPanPosition
                let s := { s with
                  _previousPinchSquaredDistance := ev.pinchSquaredDistance
                  _previousMultiTouchPanPosition := ev.multiTouchPanPosition }
                let r := drainLoop fuel s
                (r.1, OutEvent.handler d :: OutEvent.observer d :: r.2)
    else (s, [])

/-- Translation of `checkInputs`: replay the order buffer until it is
empty, dispatching each entry to its per-kind handler and observable. -/
def checkInputs (s : InputState) : InputState × List OutEvent :=
  drainLoop s._allEvents._length s

/-- One capture call, i.e. one invocation of an `_addEvents*` function with
its arguments. -/
inductive Capture where
  | buttonDown (event : PEvent)
  | buttonUp (event : PEvent)
  | doubleTap (type : String)
  | touch (point : Option PointerTouch) (offsetX offsetY : Int)
  | multiTouch (pointA pointB : Option PointerTouch)
      (previousPinchSquaredDistance pinchSquaredDistance : Int)
      (previousMultiTouchPanPosition multiTouchPanPosition : Option PointerTouch)
deriving DecidableEq

/-- Run one capture call against the state. -/
def applyCapture (c : Capture) (s : InputState) : InputState × List Dispatch :=
  match c with
  | Capture.buttonDown e => _addEventsButtonDown e s
  | Capture.buttonUp e => _addEventsButtonUp e s
  | Capture.doubleTap t => _addEventsDoubleTap t s
  | Capture.touch p dx dy => _addEventsTouch p dx dy s
  | Capture.multiTouch a b pp pd pm pan => _addEventsMultiTouch a b pp pd pm pan s

/-- Run a list of capture calls, concatenating any immediately dispatched
handler calls (none in deferred mode, all of them in immediate mode). -/
def applyCaptures (cs : List Capture) (s : InputState) : InputState × List Dispatch :=
  match cs with
  | [] => (s, [])
  | c :: rest =>
    let r := applyCapture c s
    let r2 := applyCaptures rest r.1
    (r2.1, r.2 ++ r2.2)

/-- Abstract queue entry: the payload of one undrained slot, tagged by its
kind.  The deferred queue refines a plain list of these entries. -/
inductive QEntry where
  | buttonDown (e : ICameraInputButtonDownEvent)
  | buttonUp (e : ICameraInputButtonUpEvent)
  | doubleTap (e : ICameraInputDoubleTapEvent)
  | touch (e : ICameraInputTouchEvent)
  | multiTouch (e : ICameraInputMultiTouchEvent)
deriving DecidableEq

/-- The order-buffer tag corresponding to an abstract entry. -/
def qTag : QEntry → EventBufferTag
  | QEntry.buttonDown _ => EventBufferTag.buttonDown
  | QEntry.buttonUp _ => EventBufferTag.buttonUp
  | QEntry.doubleTap _ => EventBufferTag.doubleTap
  | QEntry.touch _ => EventBufferTag.touch
  | QEntry.multiTouch _ => EventBufferTag.multiTouch

/-- Per-kind payload projections of an abstract entry. -/
def qBD : QEntry → Option ICameraInputButtonDownEvent
  | QEntry.buttonDown e => some e
  | _ => none

def qBU : QEntry → Option ICameraInputButtonUpEvent
  | QEntry.buttonUp e => some e
  | _ => none

def qDT : QEntry → Option ICameraInputDoubleTapEvent
  | QEntry.doubleTap e => some e
  | _ => none

def qTouch : QEntry → Option ICameraInputTouchEvent
  | QEntry.touch e => some e
  | _ => none

def qMT : QEntry → Option ICameraInputMultiTouchEvent
  | QEntry.multiTouch e => some e
  | _ => none

/-- The handler call produced when an abstract entry is drained. -/
def dispatchOfQ : QEntry → Dispatch
  | QEntry.buttonDown e => Dispatch.onButtonDown e.event
  | QEntry.buttonUp e => Dispatch.onButtonUp e.event
  | QEntry.doubleTap e => Dispatch.onDoubleTap e.type
  | QEntry.touch e => Dispatch.onTouch e.point e.offsetX e.offsetY
  | QEntry.multiTouch e => Dispatch.onMultiTouch e.pointA e.pointB
      e.previousPinchSquaredDistance e.pinchSquaredDistance
      e.previousMultiTouchPanPosition e.multiTouchPanPosition

/-- Abstract effect of one capture on the queue of undrained entries.
`pp` and `pm` are the values of the instance fields
`_previousPinchSquaredDistance` / `_previousMultiTouchPanPosition`, which
stay constant during a capture-only phase. -/
def qstep (pp : Int) (pm : Option PointerTouch) (q : List QEntry) (c : Capture) :
    List QEntry :=
  match c with
  | Capture.buttonDown e => q ++ [QEntry.buttonDown ⟨e⟩]
  | Capture.buttonUp e => q ++ [QEntry.buttonUp ⟨e⟩]
  | Capture.doubleTap t => q ++ [QEntry.doubleTap ⟨t⟩]
  | Capture.touch p dx dy =>
    match q.getLast? with
    | some (QEntry.touch e) =>
      q.dropLast ++ [QEntry.touch ⟨p, e.offsetX + dx, e.offsetY + dy⟩]
    | _ => q ++ [QEntry.touch ⟨p, dx, dy⟩]
  | Capture.multiTouch a b _ pd _ pan =>
    match q.getLast? with
    | some (QEntry.multiTouch e) =>
      q.dropLast ++ [QEntry.multiTouch
        { e with pointA := a, pointB := b
                 pinchSquaredDistance := e.pinchSquaredDistance + pd
                 multiTouchPanPosition := pan }]
    | _ => q ++ [QEntry.multiTouch ⟨a, b, pp, pd, pm, pan⟩]

/-- Whether a capture coalesces (merges) into the newest undrained entry
instead of appending a new one. -/
def qMerges (q : List QEntry) (c : Capture) : Bool :=
  match c with
  | Capture.touch _ _ _ =>
    match q.getLast? with
    | some (QEntry.touch _) => true
    | _ => false
  | Capture.multiTouch _ _ _ _ _ _ =>
    match q.getLast? with
    | some (QEntry.multiTouch _) => true
    | _ => false
  | _ => false

/-- Abstract queue after a whole capture sequence. -/
def coalesceList (pp : Int) (pm : Option PointerTouch) (cs : List Capture) :
    List QEntry :=
  cs.foldl (qstep pp pm) []

/-- Number of captures of the sequence that merged into an existing entry
instead of creating one. -/
def mergeCount (pp : Int) (pm : Option PointerTouch) (cs : List Capture) : Nat :=
  (cs.foldl (fun acc c => (qstep pp pm acc.1 c, acc.2 + if qMerges acc.1 c then 1 else 0))
    (([] : List QEntry), 0)).2

/-- The interleaved handler and observer notifications produced by draining
one abstract entry. -/
def outputsOfQ (q : List QEntry) : List OutEvent :=
  q.bind fun e => [OutEvent.handler (dispatchOfQ e), OutEvent.observer (dispatchOfQ e)]

/-- The order-buffer payload recorded for an abstract entry. -/
def tagEntry (e : QEntry) : IEvent := ⟨qTag e⟩

/-- The refinement relation between the buffer state and the abstract
queue: deferral is on, all six ring buffers are well formed, the order
buffer lists the tags of the undrained entries in order, and each per-kind
slot buffer lists exactly the payloads of the entries of its kind, in
order. -/
def SysInv (s : InputState) (q : List QEntry) : Prop :=
  s._defferCallback = true ∧
  WF s._allEvents ∧
  WF s._eventsButtonDown ∧
  WF s._eventsButtonUp ∧
  WF s._eventsDoubleTap ∧
  WF s._eventsTouch ∧
  WF s._eventsMultiTouch ∧
  toList s._allEvents = q.map tagEntry ∧
  toList s._eventsButtonDown = q.filterMap qBD ∧
  toList s._eventsButtonUp = q.filterMap qBU ∧
  toList s._eventsDoubleTap = q.filterMap qDT ∧
  toList s._eventsTouch = q.filterMap qTouch ∧
  toList s._eventsMultiTouch = q.filterMap qMT

instance (s : InputState) (q : List QEntry) : Decidable (SysInv s q) := by
  unfold SysInv
  infer_instance

/-- Engine state read by `_pointerInput`. -/
structure EngineFlags where
  isInVRExclusivePointerMode : Bool
  isPointerLock : Bool
  _badOS : Bool
deriving DecidableEq

/-- Pointer event classification, mirroring the `PointerEventTypes` values
the handler branches on. -/
inductive PointerEventTypes where
  | POINTERDOWN
  | POINTERUP
  | POINTERMOVE
  | POINTERDOUBLETAP
deriving DecidableEq

/-- A pointer notification as delivered to `_pointerInput`. -/
structure PointerInfo where
  type : PointerEventTypes
  event : PEvent
deriving DecidableEq

/-- An externally observable output of the pointer layer: an immediately
dispatched handler call (only when deferral is off), or the synchronous
`onLostFocus` notification. -/
inductive PointerOut where
  | dispatch (d : Dispatch)
  | lostFocus
deriving DecidableEq

/-- The state owned by `attachControl`: the queue state, the modifier/button
bookkeeping fields of the class, the two tracked contact points, and the two
closure locals `previousPinchSquaredDistance` /
`previousMultiTouchPanPosition`. -/
structure CameraPointersState where
  inner : InputState
  buttons : List Int
  _altKey : Bool
  _ctrlKey : Bool
  _metaKey : Bool
  _shiftKey : Bool
  _buttonsPressed : Nat
  _pointA : Option PointerTouch
  _pointB : Option PointerTouch
  previousPinchSquaredDistance : Int
  previousMultiTouchPanPosition : Option PointerTouch
deriving DecidableEq

/-- The state right after `attachControl` on a fresh instance. -/
def initialCameraPointersState : CameraPointersState :=
  ⟨initialInputState, [0, 1, 2], false, false, false, false, 0, none, none, 0, none⟩

/-- The `pinchSquaredDistance |= 0` NaN filter: JS `|0` truncates the number
to a signed 32-bit integer.  On the integers of this model that is the
int32 wrap. -/
def or0 (n : Int) : Int := (n + 2 ^ 31) % 2 ^ 32 - 2 ^ 31

/-- Modelling note: in the source the pan position stores `p.type` (a
numeric event-type constant) in the `type` field of the `PointerTouch`
record; no verified property inspects the field, so a fixed label stands
in for the number. -/
def pointerMoveTypeLabel : String := "POINTERMOVE"

/-- The contact-point bookkeeping of the POINTERUP branch: mouse and pen
release the secondary contact, `_badOS` platforms drop both contacts, and
otherwise the released pointer id is removed, promoting the secondary
contact to primary when the primary was released. -/
def _pointerUpPoints (engine : EngineFlags) (evt : PEvent) (s : CameraPointersState) :
    CameraPointersState :=
  let isTouch := evt.pointerType = "touch"
  let s := if isTouch then s else { s with _pointB := none }
  if engine._badOS = true then
    { s with _pointA := none, _pointB := none }
  else
    match s._pointA, s._pointB with
    | some a, some b =>
      if a.pointerId = evt.pointerId then
        { s with _pointA := some b, _pointB := none }
      else if b.pointerId = evt.pointerId then
        { s with _pointB := none }
      else
        { s with _pointA := none, _pointB := none }
    | _, _ => { s with _pointA := none, _pointB := none }

/-- Translation of the `_pointerInput` closure built by `attachControl`. -/
def _pointerInput (engine : EngineFlags) (p : PointerInfo) (s : CameraPointersState) :
    CameraPointersState × List PointerOut :=
  let evt := p.event
  let isTouch := evt.pointerType = "touch"
  if engine.isInVRExclusivePointerMode = true then (s, [])
  else if p.type ≠ PointerEventTypes.POINTERMOVE ∧ evt.button ∉ s.buttons then (s, [])
  else
    let s := { s with _altKey := evt.altKey, _ctrlKey := evt.ctrlKey,
                      _metaKey := evt.metaKey, _shiftKey := evt.shiftKey,
                      _buttonsPressed := evt.buttons }
    if engine.isPointerLock = true then
      -- the movementX/mozMovementX/webkitMovementX/msMovementX fallback
      -- chain collapses to the single modelled movement field
      let offsetX := evt.movementX
      let offsetY := evt.movementY
      let r := _addEventsTouch none offsetX offsetY s.inner
      ({ s with inner := r.1, _pointA := none, _pointB := none },
        r.2.map PointerOut.dispatch)
    else if p.type = PointerEventTypes.POINTERDOWN then
      -- setPointerCapture is pure DOM interaction; failures are swallowed
      let s :=
        if s._pointA = none then
          { s with _pointA := some ⟨evt.clientX, evt.clientY, evt.pointerId, evt.pointerType⟩ }
        else if s._pointB = none then
          { s with _pointB := some ⟨evt.clientX, evt.clientY, evt.pointerId, evt.pointerType⟩ }
        else s
      let r := _addEventsButtonDown evt s.inner
      ({ s with inner := r.1 }, r.2.map PointerOut.dispatch)
    else if p.type = PointerEventTypes.POINTERDOUBLETAP then
      let r := _addEventsDoubleTap evt.pointerType s.inner
      ({ s with inner := r.1 }, r.2.map PointerOut.dispatch)
    else if p.type = PointerEventTypes.POINTERUP then
      -- releasePointerCapture is pure DOM interaction; failures are swallowed
      let s := _pointerUpPoints engine evt s
      let r1 :=
        if s.previousPinchSquaredDistance ≠ 0 ∨ s.previousMultiTouchPanPosition ≠ none then
          let r := _addEventsMultiTouch s._pointA s._pointB
            s.previousPinchSquaredDistance 0 s.previousMultiTouchPanPosition none s.inner
          ({ s with inner := r.1, previousPinchSquaredDistance := 0,
                    previousMultiTouchPanPosition := none }, r.2.map PointerOut.dispatch)
        else (s, ([] : List PointerOut))
      let s := r1.1
      let r := _addEventsButtonUp evt s.inner
      ({ s with inner := r.1 }, r1.2 ++ r.2.map PointerOut.dispatch)
    else if p.type = PointerEventTypes.POINTERMOVE then
      match s._pointA, s._pointB with
      | some a, none =>
        -- one button down: drag
        let offsetX := evt.clientX - a.x
        let offsetY := evt.clientY - a.y
        let r := _addEventsTouch (some a) offsetX offsetY s.inner
        ({ s with inner := r.1,
                  _pointA := some { a with x := evt.clientX, y := evt.clientY } },
          r.2.map PointerOut.dispatch)
      | some a, some b =>
        -- two buttons down: pinch
        let a' := if a.pointerId = evt.pointerId then
            { a with x := evt.clientX, y := evt.clientY } else a
        let b' := if a.pointerId = evt.pointerId then b
          else { b with x := evt.clientX, y := evt.clientY }
        let distX := a'.x - b'.x
        let distY := a'.y - b'.y
        let pinchSquaredDistance := or0 (distX * distX + distY * distY)
        let multiTouchPanPosition : PointerTouch :=
          ⟨(a'.x + b'.x) / 2, (a'.y + b'.y) / 2, evt.pointerId, pointerMoveTypeLabel⟩
        let r := _addEventsMultiTouch (some a') (some b')
          s.previousPinchSquaredDistance pinchSquaredDistance
          s.previousMultiTouchPanPosition (some multiTouchPanPosition) s.inner
        ({ s with inner := r.1, _pointA := some a', _pointB := some b',
                  previousMultiTouchPanPosition := some multiTouchPanPosition,
                  previousPinchSquaredDistance := pinchSquaredDistance },
          r.2.map PointerOut.dispatch)
      | _, _ => (s, [])
    else (s, [])

/-- Translation of the `_onLostFocus` closure built by `attachControl`:
both tracked contact points and the accumulated previous-pinch locals are
reset, and `onLostFocus` is invoked synchronously (nothing is enqueued). -/
def _onLostFocus (s : CameraPointersState) : CameraPointersState × List PointerOut :=
  ({ s with _pointA := none, _pointB := none,
            previousPinchSquaredDistance := 0,
            previousMultiTouchPanPosition := none },
    [PointerOut.lostFocus])

/-- Feed a list of pointer notifications through `_pointerInput`,
collecting the immediate outputs. -/
def runPointerInputs (engine : EngineFlags) (ps : List PointerInfo)
    (s : CameraPointersState) : CameraPointersState × List PointerOut :=
  match ps with
  | [] => (s, [])
  | p :: rest =>
    let r := _pointerInput engine p s
    let r2 := runPointerInputs engine rest r.1
    (r2.1, r.2 ++ r2.2)

/-- Projection of one drain output onto its handler call, if it is one. -/
def handlerOf : OutEvent → Option Dispatch
  | OutEvent.handler d => some d
  | _ => none

/-- Projection of one drain output onto its observer notification. -/
def observerOf : OutEvent → Option Dispatch
  | OutEvent.observer d => some d
  | _ => none

/-- The arguments of an `onTouch` handler call, if it is one. -/
def touchHandlerOf : OutEvent → Option (Option PointerTouch × Int × Int)
  | OutEvent.handler (Dispatch.onTouch p x y) => some (p, x, y)
  | _ => none

/-- The handler call performed immediately for a capture when deferral is
off. -/
def captureDispatch : Capture → Dispatch
  | Capture.buttonDown e => Dispatch.onButtonDown e
  | Capture.buttonUp e => Dispatch.onButtonUp e
  | Capture.doubleTap t => Dispatch.onDoubleTap t
  | Capture.touch p dx dy => Dispatch.onTouch p dx dy
  | Capture.multiTouch a b pp pd pm pan => Dispatch.onMultiTouch a b pp pd pm pan

/-- The slot buffer a capture kind writes to. -/
def captureKind : Capture → EventBufferTag
  | Capture.buttonDown _ => EventBufferTag.buttonDown
  | Capture.buttonUp _ => EventBufferTag.buttonUp
  | Capture.doubleTap _ => EventBufferTag.doubleTap
  | Capture.touch _ _ _ => EventBufferTag.touch
  | Capture.multiTouch _ _ _ _ _ _ => EventBufferTag.multiTouch

/-- The fresh queue entry created by a non-coalesced capture, given the
instance fields feeding the `previous*` slot fields. -/
def freshEntry (pp : Int) (pm : Option PointerTouch) : Capture → QEntry
  | Capture.buttonDown e => QEntry.buttonDown ⟨e⟩
  | Capture.buttonUp e => QEntry.buttonUp ⟨e⟩
  | Capture.doubleTap t => QEntry.doubleTap ⟨t⟩
  | Capture.touch p dx dy => QEntry.touch ⟨p, dx, dy⟩
  | Capture.multiTouch a b _ pd _ pan => QEntry.multiTouch ⟨a, b, pp, pd, pm, pan⟩

/-- Sum of the `offsetX` arguments over all `onTouch` calls of a log. -/
def touchSumX (l : List Dispatch) : Int :=
  (l.filterMap fun d => match d with
    | Dispatch.onTouch _ x _ => some x
    | _ => none).sum

/-- Sum of the `offsetY` arguments over all `onTouch` calls of a log. -/
def touchSumY (l : List Dispatch) : Int :=
  (l.filterMap fun d => match d with
    | Dispatch.onTouch _ _ y => some y
    | _ => none).sum

/-- Sum of the `pinchSquaredDistance` arguments over all `onMultiTouch`
calls of a log. -/
def pinchSum (l : List Dispatch) : Int :=
  (l.filterMap fun d => match d with
    | Dispatch.onMultiTouch _ _ _ pd _ _ => some pd
    | _ => none).sum

/-- The `multiTouchPanPosition` argument of the last `onMultiTouch` call of
a log, if any. -/
def lastPan (l : List Dispatch) : Option (Option PointerTouch) :=
  (l.filterMap fun d => match d with
    | Dispatch.onMultiTouch _ _ _ _ _ pan => some pan
    | _ => none).getLast?

/-- The `pinchSquaredDistance` argument of the last `onMultiTouch` call of
a log, if any. -/
def lastPinch (l : List Dispatch) : Option Int :=
  (l.filterMap fun d => match d with
    | Dispatch.onMultiTouch _ _ _ pd _ _ => some pd
    | _ => none).getLast?

/-- The accumulated content of the single touch slot after a run of
coalesced touch captures. -/
def touchAccum (e : ICameraInputTouchEvent)
    (ds : List (Option PointerTouch × Int × Int)) : ICameraInputTouchEvent :=
  ds.foldl (fun e d => ⟨d.1, e.offsetX + d.2.1, e.offsetY + d.2.2⟩) e

/-- The pan position argument a capture would deliver, for multi-touch
captures. -/
def panOfCapture : Capture → Option (Option PointerTouch)
  | Capture.multiTouch _ _ _ _ _ pan => some pan
  | _ => none

/-- The `pinchSquaredDistance` arguments of the `onMultiTouch` calls of a
log, in order. -/
def pinchList (l : List Dispatch) : List Int :=
  l.filterMap fun d => match d with
    | Dispatch.onMultiTouch _ _ _ pd _ _ => some pd
    | _ => none

namespace _EventRingBuffer

variable {T : Type} [Inhabited T]

theorem wrapIdx_eq {m i : Nat} (h : i ≤ m) : wrapIdx m i = i % m := by
  unfold wrapIdx
  rcases Nat.lt_or_ge i m with hlt | hge
  · rw [if_neg (by omega), Nat.mod_eq_of_lt hlt]
  · have hm : i = m := by omega
    rw [if_pos (by omega), hm, Nat.mod_self]

theorem map_range_congr {α : Type _} (f g : Nat → α) (n : Nat)
    (h : ∀ i, i < n → f i = g i) : (List.range n).map f = (List.range n).map g := by
  induction n with
  | zero => simp
  | succ k ih =>
    rw [List.range_succ, List.map_append, List.map_append,
      ih (fun i hi => h i (by omega))]
    simp [h k (by omega)]

theorem mod_add_inj {m t i j : Nat} (hi : i < m) (hj : j < m)
    (h : (t + i) % m = (t + j) % m) : i = j := by
  have h1 : i ≡ j [MOD m] := Nat.ModEq.add_left_cancel' t h
  have h2 : i % m = j % m := h1
  rwa [Nat.mod_eq_of_lt hi, Nat.mod_eq_of_lt hj] at h2

@[simp] theorem length_toList (b : _EventRingBuffer T) : (toList b).length = b._length := by
  simp [toList]

theorem toList_empty : toList (empty : _EventRingBuffer T) = [] := by
  simp [toList, empty]

theorem WF_empty : WF (empty : _EventRingBuffer T) := by
  simp [WF, empty, _maxSize]

theorem toList_get (b : _EventRingBuffer T) {i : Nat} (h : i < b._length) :
    (toList b)[i]? =
      some ((b._container[(b._tail + i) % b._container.length]?).getD default) := by
  simp [toList, List.getElem?_range h]

theorem set_append_cons (l₁ l₂ : List T) (a v : T) :
    (l₁ ++ a :: l₂).set l₁.length v = l₁ ++ v :: l₂ := by
  induction l₁ with
  | nil => simp
  | cons x xs ih => simp [ih]

theorem pop_eq (b : _EventRingBuffer T) (h : 0 < b._length) :
    b.pop = (some ((b._container[wrapIdx b._container.length b._tail]?).getD default),
      { b with _head := wrapIdx b._container.length b._head
               _tail := wrapIdx b._container.length b._tail + 1
               _length := b._length - 1 }) := by
  rw [pop, if_neg (by omega)]
  rfl

/-- Full behavioural specification of `pop` on a nonempty well-formed
buffer: it returns the oldest element, drops it from the logical content,
and preserves well-formedness without touching the container or the
`pushed` reference. -/
theorem pop_spec (b : _EventRingBuffer T) (hwf : WF b) (h : 0 < b._length) :
    (b.pop).1 = (toList b)[0]? ∧
    toList (b.pop).2 = (toList b).tail ∧
    WF (b.pop).2 ∧
    (b.pop).2._length = b._length - 1 ∧
    (b.pop).2._container = b._container ∧
    (b.pop).2.pushedIdx = b.pushedIdx := by
  obtain ⟨hcap, hlen, ht, hh, hmod, hpush⟩ := hwf
  have hm : 0 < b._container.length := by omega
  have htm : b._tail % b._container.length < b._container.length := Nat.mod_lt _ hm
  have hhm : b._head % b._container.length < b._container.length := Nat.mod_lt _ hm
  rw [pop_eq b h, wrapIdx_eq ht, wrapIdx_eq hh]
  dsimp only
  refine ⟨?_, ?_, ?_, rfl, rfl, rfl⟩
  · rw [toList_get b h]
    simp
  · have hk : b._length - 1 + 1 = b._length := by omega
    conv_rhs => rw [toList, ← hk, List.range_succ_eq_map]
    rw [List.map_cons, List.tail_cons, List.map_map]
    rw [toList]
    apply map_range_congr
    intro i hi
    simp only [Function.comp]
    have h1 : b._tail % b._container.length + 1 + i
        = b._tail % b._container.length + (1 + i) := by omega
    rw [h1, Nat.mod_add_mod]
    have h2 : b._tail + (1 + i) = b._tail + Nat.succ i := by omega
    rw [h2]
  · unfold WF
    dsimp only
    refine ⟨hcap, by omega, by omega, by omega, ?_, ?_⟩
    · intro hm0
      have e1 : b._head % b._container.length % b._container.length
          = b._head % b._container.length := Nat.mod_eq_of_lt hhm
      have e2 : b._tail % b._container.length + 1 + (b._length - 1)
          = b._tail % b._container.length + b._length := by omega
      rw [e1, e2, Nat.mod_add_mod, hmod hm0]
    · intro h2
      have e1 : b._tail % b._container.length + 1 + (b._length - 1 - 1)
          = b._tail % b._container.length + (b._length - 1) := by omega
      rw [e1, Nat.mod_add_mod]
      exact hpush (by omega)

/-- Specification of the wrap-and-write body followed by the slot write,
below capacity: the new value is appended to the logical content. -/
theorem pushCoreSet_spec (b : _EventRingBuffer T) (v : T) (hwf : WF b)
    (hlt : b._length < 50) :
    toList ((b.pushCore).modifyPushed fun _ => v) = toList b ++ [v] ∧
    WF ((b.pushCore).modifyPushed fun _ => v) ∧
    ((b.pushCore).modifyPushed fun _ => v)._length = b._length + 1 := by
  obtain ⟨hcap, hlen, ht, hh, hmod, hpush⟩ := hwf
  by_cases hm0 : b._container.length = 0
  · -- container still empty: the buffer is completely fresh
    have hl0 : b._length = 0 := by omega
    have hc0 : b._container = [] := List.length_eq_zero.mp hm0
    have ht0 : b._tail = 0 := by omega
    have hh0 : b._head = 0 := by omega
    rw [pushCore]
    simp only [_wrapPointers, hc0, hl0, ht0, hh0]
    rw [if_pos (by simp [wrapIdx])]
    simp only [wrapIdx]
    norm_num
    dsimp only [modifyPushed]
    refine ⟨?_, ?_, rfl⟩
    · simp [toList, hc0, hl0, List.range_succ]
    · simp [WF, _maxSize]
  · have hm : 0 < b._container.length := by omega
    have ht' : wrapIdx b._container.length b._tail = b._tail % b._container.length :=
      wrapIdx_eq ht
    have hh' : wrapIdx b._container.length b._head = b._head % b._container.length :=
      wrapIdx_eq hh
    have htm : b._tail % b._container.length < b._container.length := Nat.mod_lt _ hm
    have hhm : b._head % b._container.length < b._container.length := Nat.mod_lt _ hm
    rw [pushCore]
    simp only [_wrapPointers]
    by_cases hcond : wrapIdx b._container.length b._head = wrapIdx b._container.length b._tail
        ∧ (0 < b._length ∨ b._container.length = 0)
    · -- grow branch: the ring is full, splice in one fresh slot at `_head`
      rw [if_pos hcond]
      obtain ⟨hht, hl⟩ := hcond
      have hlpos : 0 < b._length := by
        rcases hl with h | h
        · exact h
        · omega
      -- a nonempty full ring: the length equals the container length
      have hfull : b._length = b._container.length := by
        have h1 : (b._tail + b._length) % b._container.length
            = b._tail % b._container.length := by
          rw [← hmod hm0]
          rw [ht', hh'] at hht
          exact hht
        have h2 : b._length % b._container.length = 0 := by
          have h6 : (b._tail + b._length % b._container.length) % b._container.length
              = (b._tail + 0) % b._container.length := by
            rw [Nat.add_comm b._tail (b._length % b._container.length), Nat.mod_add_mod,
              Nat.add_comm b._length b._tail, Nat.add_zero]
            exact h1
          exact mod_add_inj (Nat.mod_lt b._length hm) hm h6
        have h7 := Nat.le_of_dvd hlpos (Nat.dvd_of_mod_eq_zero h2)
        omega
      rw [hht, ht']
      set m := b._container.length with hmdef
      set t' := b._tail % m with ht'def
      dsimp only [modifyPushed]
      have htake : (b._container.take t').length = t' := by
        rw [List.length_take]
        omega
      have hsetc := set_append_cons (b._container.take t') (b._container.drop t') default v
      rw [htake] at hsetc
      rw [hsetc]
      have hlen1 : (b._container.take t' ++ v :: b._container.drop t').length = m + 1 := by
        simp [List.length_take]
        omega
      refine ⟨?_, ?_, rfl⟩
      · -- logical content: old content followed by the new value
        simp only [toList, hlen1]
        rw [List.range_succ, List.map_append]
        congr 1
        · apply map_range_congr
          intro j hj
          by_cases hcase : t' + 1 + j < m + 1
          · rw [Nat.mod_eq_of_lt hcase]
            rw [List.getElem?_append_right (by rw [htake]; omega), htake]
            have e1 : t' + 1 + j - t' = j + 1 := by omega
            rw [e1, List.getElem?_cons_succ, List.getElem?_drop]
            have e2 : (b._tail + j) % m = t' + j := by
              conv_lhs => rw [← Nat.mod_add_mod]
              rw [← ht'def]
              exact Nat.mod_eq_of_lt (by omega)
            rw [e2]
          · have e1 : (t' + 1 + j) % (m + 1) = t' + j - m := by
              rw [Nat.mod_eq_sub_mod (by omega), Nat.mod_eq_of_lt (by omega)]
              omega
            rw [e1]
            rw [List.getElem?_append_left (by rw [htake]; omega)]
            rw [List.getElem?_take_of_lt (by omega)]
            have e2 : (b._tail + j) % m = t' + j - m := by
              conv_lhs => rw [← Nat.mod_add_mod]
              rw [← ht'def, Nat.mod_eq_sub_mod (by omega), Nat.mod_eq_of_lt (by omega)]
            rw [e2]
        · simp only [List.map_cons, List.map_nil]
          have e1 : (t' + 1 + b._length) % (m + 1) = t' := by
            have e2 : t' + 1 + b._length = t' + (m + 1) := by omega
            rw [e2, Nat.add_mod_right, Nat.mod_eq_of_lt (by omega)]
          rw [e1]
          rw [List.getElem?_append_right (by rw [htake]), htake]
          simp
      · -- well-formedness of the grown buffer
        unfold WF
        dsimp only
        simp only [hlen1]
        refine ⟨by unfold _maxSize at *; omega, by omega, by omega, by omega, ?_, ?_⟩
        · intro
          have e1 : t' + 1 + (b._length + 1) = (t' + 1) + (m + 1) := by omega
          rw [e1, Nat.add_mod_right]
        · intro
          have e1 : t' + 1 + (b._length + 1 - 1) = t' + (m + 1) := by omega
          rw [e1, Nat.add_mod_right, Nat.mod_eq_of_lt (by omega)]
    · -- recycle branch: overwrite the free slot at `_head`
      rw [if_neg hcond]
      have hlt2 : b._length < b._container.length := by
        rcases Nat.lt_or_ge b._length b._container.length with h | h
        · exact h
        · exfalso
          apply hcond
          refine ⟨?_, Or.inl (by omega)⟩
          rw [ht', hh', hmod hm0]
          have hfull2 : b._length = b._container.length := by omega
          rw [hfull2, Nat.add_mod_right]
      rw [ht', hh']
      set m := b._container.length with hmdef
      set t' := b._tail % m with ht'def
      set h' := b._head % m with hh'def
      have hhead : h' = (t' + b._length) % m := by
        rw [hmod hm0, ht'def, Nat.mod_add_mod]
      dsimp only [modifyPushed]
      refine ⟨?_, ?_, rfl⟩
      · simp only [toList, List.length_set]
        rw [List.range_succ, List.map_append]
        congr 1
        · apply map_range_congr
          intro j hj
          have hne : (t' + j) % m ≠ h' := by
            rw [hhead]
            intro hcontra
            have := mod_add_inj (show j < m by omega) (show b._length < m by omega) hcontra
            omega
          rw [List.getElem?_set_ne (Ne.symm hne)]
          have e2 : (b._tail + j) % m = (t' + j) % m := by
            conv_lhs => rw [← Nat.mod_add_mod]
          rw [e2]
        · simp only [List.map_cons, List.map_nil]
          rw [← hhead]
          rw [List.getElem?_set_self (by omega)]
          simp
      · unfold WF
        dsimp only
        simp only [List.length_set]
        refine ⟨hcap, by omega, by omega, by omega, ?_, ?_⟩
        · intro
          rw [hhead, Nat.mod_add_mod, ← hmdef]
          congr 1
        · intro
          have e1 : b._length + 1 - 1 = b._length := by omega
          rw [e1, ← hmdef, ← hhead]

/-- Specification of `pushSet` below capacity. -/
theorem pushSet_spec (b : _EventRingBuffer T) (v : T) (hwf : WF b)
    (hlt : b._length < 50) :
    toList (pushSet b v) = toList b ++ [v] ∧
    WF (pushSet b v) ∧
    (pushSet b v)._length = b._length + 1 := by
  have h : pushSet b v = (b.pushCore).modifyPushed fun _ => v := by
    have hc : ¬ (_maxSize ≤ b._length) := by unfold _maxSize; omega
    rw [pushSet, push, if_neg hc]
  rw [h]
  exact pushCoreSet_spec b v hwf hlt

/-- Specification of `pushSet` at capacity: the push first evicts the
oldest entry (pop-and-discard) and then appends the new value. -/
theorem pushSet_full_spec (b : _EventRingBuffer T) (v : T) (hwf : WF b)
    (hfull : b._length = 50) :
    toList (pushSet b v) = (toList b).tail ++ [v] ∧
    WF (pushSet b v) ∧
    (pushSet b v)._length = 50 := by
  have hp := pop_spec b hwf (by omega)
  have h : pushSet b v = ((b.pop).2.pushCore).modifyPushed fun _ => v := by
    have hc : _maxSize ≤ b._length := by unfold _maxSize; omega
    rw [pushSet, push, if_pos hc]
  obtain ⟨_, hlist, hwf2, hlen2, _, _⟩ := hp
  have hcs := pushCoreSet_spec (b.pop).2 v hwf2 (by omega)
  rw [h]
  refine ⟨?_, hcs.2.1, ?_⟩
  · rw [hcs.1, hlist]
  · rw [hcs.2.2, hlen2, hfull]

theorem dropLast_concat' {α : Type _} (l : List α) (x : α) : (l ++ [x]).dropLast = l := by
  simp

theorem pop_length_all (b : _EventRingBuffer T) : (b.pop).2._length = b._length - 1 := by
  by_cases h : b._length ≤ 0
  · have h0 : b._length = 0 := by omega
    simp [pop, h, h0]
  · simp [pop, h, _wrapPointers]

/-- Reading through `pushed` on a nonempty well-formed buffer yields the
most recently pushed (newest) live element. -/
theorem readPushed_spec (b : _EventRingBuffer T) (hwf : WF b) (h : 0 < b._length) :
    b.readPushed = (toList b)[b._length - 1]? := by
  obtain ⟨hcap, hlen, ht, hh, hmod, hpush⟩ := hwf
  rw [toList_get b (by omega)]
  simp only [readPushed, hpush h]

/-- Mutating through `pushed` on a nonempty well-formed buffer rewrites the
newest live element in place and leaves everything else intact. -/
theorem modifyLast_spec (b : _EventRingBuffer T) (f : T → T) (hwf : WF b)
    (h : 0 < b._length) :
    toList (b.modifyPushed f)
      = (toList b).dropLast ++ [f (((toList b)[b._length - 1]?).getD default)] ∧
    WF (b.modifyPushed f) ∧
    (b.modifyPushed f)._length = b._length := by
  obtain ⟨hcap, hlen, ht, hh, hmod, hpush⟩ := hwf
  have hm : 0 < b._container.length := by omega
  have hp := hpush h
  have hplt : (b._tail + (b._length - 1)) % b._container.length < b._container.length :=
    Nat.mod_lt _ hm
  simp only [modifyPushed, hp]
  refine ⟨?_, ?_, ?_⟩
  · obtain ⟨k, hk⟩ : ∃ k, b._length = k + 1 := ⟨b._length - 1, by omega⟩
    have hk1 : b._length - 1 = k := by omega
    rw [toList_get b (by omega)]
    simp only [Option.getD_some]
    rw [hk1]
    simp only [toList, List.length_set]
    rw [hk]
    simp only [List.range_succ, List.map_append, List.map_cons, List.map_nil]
    rw [dropLast_concat']
    congr 1
    · apply map_range_congr
      intro j hj
      have hne : (b._tail + j) % b._container.length
          ≠ (b._tail + k) % b._container.length := by
        intro hcontra
        have := mod_add_inj (show j < b._container.length by omega)
          (show k < b._container.length by omega) hcontra
        omega
      rw [List.getElem?_set_ne (Ne.symm hne)]
    · rw [hk1] at hplt
      rw [List.getElem?_set_self hplt]
      simp
  · refine ⟨?_, ?_, ?_, ?_, ?_, ?_⟩ <;> simp only [List.length_set]
    · exact hcap
    · exact hlen
    · exact ht
    · exact hh
    · exact hmod
    · intro _
      trivial
  · trivial

/-- Specification of `clear`: length and cursors reset, backing storage
replaced by a fresh empty array. -/
theorem clear_spec (b : _EventRingBuffer T) :
    (b.clear)._length = 0 ∧ (b.clear)._head = 0 ∧ (b.clear)._tail = 0 ∧
    (b.clear)._container = [] ∧ WF (b.clear) ∧ toList (b.clear) = [] := by
  refine ⟨rfl, rfl, rfl, rfl, ?_, ?_⟩
  · simp [WF, clear, _maxSize]
  · simp [toList, clear]

theorem popAllAux_eq (n : Nat) : ∀ (b : _EventRingBuffer T), WF b → b._length = n →
    popAllAux n b = toList b := by
  induction n with
  | zero =>
    intro b _ hlen
    have : toList b = [] := by
      rw [toList, hlen]
      simp
    rw [this, popAllAux]
  | succ k ih =>
    intro b hwf hlen
    obtain ⟨h1, h2, h3, h4, h5, h6⟩ := pop_spec b hwf (by omega)
    rcases hbp : b.pop with ⟨o, b2⟩
    rw [hbp] at h1 h2 h3 h4
    dsimp only at h1 h2 h3 h4
    rcases hl : toList b with _ | ⟨x, xs⟩
    · exfalso
      have := length_toList b
      rw [hl] at this
      simp at this
      omega
    · rw [hl] at h1 h2
      simp at h1
      have hx := ih b2 h3 (by omega)
      rw [popAllAux, hbp, h1]
      dsimp only
      rw [hx, h2]
      simp [hl]

theorem popAll_eq_toList (b : _EventRingBuffer T) (hwf : WF b) :
    popAll b = toList b :=
  popAllAux_eq b._length b hwf rfl

/-- Folding pushes over a well-formed buffer keeps the newest elements,
evicting from the front once the running content exceeds 50 entries. -/
theorem pushAll_spec (vs : List T) : ∀ (b : _EventRingBuffer T), WF b →
    toList (pushAll b vs)
      = (toList b ++ vs).drop (b._length + vs.length - 50) ∧
    WF (pushAll b vs) := by
  induction vs with
  | nil =>
    intro b hwf
    have hlen : b._length ≤ 50 := by
      obtain ⟨hcap, hlen, _⟩ := hwf
      unfold _maxSize at hcap
      omega
    constructor
    · have h0 : b._length - 50 = 0 := by omega
      simp [pushAll, h0]
    · exact hwf
  | cons v vs ih =>
    intro b hwf
    have hcases : b._length < 50 ∨ b._length = 50 := by
      obtain ⟨hcap, hlen, _⟩ := hwf
      unfold _maxSize at hcap
      omega
    have hstep : pushAll b (v :: vs) = pushAll (pushSet b v) vs := rfl
    rcases hcases with hlt | heq
    · obtain ⟨hl, hw, hn⟩ := pushSet_spec b v hwf hlt
      obtain ⟨ihl, ihw⟩ := ih (pushSet b v) hw
      rw [hstep]
      refine ⟨?_, ihw⟩
      rw [ihl, hl, hn]
      have e1 : toList b ++ [v] ++ vs = toList b ++ v :: vs := by simp
      rw [e1]
      congr 1
      simp only [List.length_cons]
      omega
    · obtain ⟨hl, hw, hn⟩ := pushSet_full_spec b v hwf heq
      obtain ⟨ihl, ihw⟩ := ih (pushSet b v) hw
      rw [hstep]
      refine ⟨?_, ihw⟩
      rw [ihl, hl, hn, heq]
      have hlen50 : (toList b).length = 50 := by rw [length_toList, heq]
      rcases hcons : toList b with _ | ⟨x, xs⟩
      · rw [hcons] at hlen50
        simp at hlen50
      · simp only [List.tail_cons, List.length_cons, List.cons_append]
        have e1 : xs ++ [v] ++ vs = xs ++ v :: vs := by simp
        rw [e1]
        have e3 : 50 + (vs.length + 1) - 50 = vs.length + 1 := by omega
        rw [e3, List.drop_succ_cons]
        congr 1
        omega

end _EventRingBuffer

theorem SysInv_initial : SysInv initialInputState [] := by
  unfold SysInv initialInputState DEFFER_CALLBACK
  refine ⟨rfl, WF_empty, WF_empty, WF_empty, WF_empty, WF_empty, WF_empty, ?_, ?_, ?_,
    ?_, ?_, ?_⟩ <;> simp [toList_empty]

theorem SysInv_allEvents_length {s : InputState} {q : List QEntry}
    (hinv : SysInv s q) : s._allEvents._length = q.length := by
  have h := hinv.2.2.2.2.2.2.2.1
  have h2 := length_toList s._allEvents
  rw [h] at h2
  simpa using h2.symm

theorem readPushed_allEvents {s : InputState} {q : List QEntry}
    (hinv : SysInv s q) (h : q ≠ []) :
    s._allEvents.readPushed = (q.getLast?).map tagEntry := by
  have hlen := SysInv_allEvents_length hinv
  have hq : 0 < q.length := List.length_pos.mpr h
  rw [readPushed_spec s._allEvents hinv.2.1 (by omega)]
  rw [hinv.2.2.2.2.2.2.2.1, hlen]
  rw [List.getLast?_eq_getElem?, List.getElem?_map]

/-- One deferred capture call refines one abstract queue step: no handler
fires at capture time, and the buffers afterwards represent the stepped
queue, provided the stepped queue still fits in the 50-entry capacity. -/
theorem applyCapture_step (c : Capture) (s : InputState) (q : List QEntry)
    (hinv : SysInv s q)
    (hcap : (qstep s._previousPinchSquaredDistance s._previousMultiTouchPanPosition q c).length
      ≤ 50) :
    (applyCapture c s).2 = [] ∧
    SysInv (applyCapture c s).1
      (qstep s._previousPinchSquaredDistance s._previousMultiTouchPanPosition q c) ∧
    (applyCapture c s).1._previousPinchSquaredDistance = s._previousPinchSquaredDistance ∧
    (applyCapture c s).1._previousMultiTouchPanPosition = s._previousMultiTouchPanPosition := by
  have hinv' := hinv
  obtain ⟨hd, wfA, wfBD, wfBU, wfDT, wfT, wfMT, lA, lBD, lBU, lDT, lT, lMT⟩ := hinv
  have hlenA : s._allEvents._length = q.length := SysInv_allEvents_length hinv'
  have hdne : ¬ s._defferCallback = false := by simp [hd]
  cases c with
  | buttonDown e =>
    have happ : applyCapture (Capture.buttonDown e) s = _addEventsButtonDown e s := rfl
    have hqe : qstep s._previousPinchSquaredDistance s._previousMultiTouchPanPosition q
        (Capture.buttonDown e) = q ++ [QEntry.buttonDown ⟨e⟩] := rfl
    rw [happ, hqe]
    rw [hqe] at hcap
    have hq49 : q.length < 50 := by
      rw [List.length_append] at hcap
      simp at hcap
      omega
    have hlbd : s._eventsButtonDown._length = (q.filterMap qBD).length := by
      have h2 := length_toList s._eventsButtonDown
      rw [lBD] at h2
      exact h2.symm
    have hfml := List.length_filterMap_le qBD q
    obtain ⟨hA1, hA2, hA3⟩ := pushSet_spec s._allEvents ⟨EventBufferTag.buttonDown⟩ wfA
      (by omega)
    obtain ⟨hB1, hB2, hB3⟩ := pushSet_spec s._eventsButtonDown ⟨e⟩ wfBD (by omega)
    unfold _addEventsButtonDown
    rw [if_neg hdne]
    dsimp only
    refine ⟨rfl, ?_, rfl, rfl⟩
    refine ⟨hd, hA2, hB2, wfBU, wfDT, wfT, wfMT, ?_, ?_, ?_, ?_, ?_, ?_⟩
    · rw [hA1, lA, List.map_append]
      rfl
    · rw [hB1, lBD, List.filterMap_append]
      rfl
    · rw [List.filterMap_append]
      simpa [qBU] using lBU
    · rw [List.filterMap_append]
      simpa [qDT] using lDT
    · rw [List.filterMap_append]
      simpa [qTouch] using lT
    · rw [List.filterMap_append]
      simpa [qMT] using lMT
  | buttonUp e =>
    have happ : applyCapture (Capture.buttonUp e) s = _addEventsButtonUp e s := rfl
    have hqe : qstep s._previousPinchSquaredDistance s._previousMultiTouchPanPosition q
        (Capture.buttonUp e) = q ++ [QEntry.buttonUp ⟨e⟩] := rfl
    rw [happ, hqe]
    rw [hqe] at hcap
    have hq49 : q.length < 50 := by
      rw [List.length_append] at hcap
      simp at hcap
      omega
    have hlbu : s._eventsButtonUp._length = (q.filterMap qBU).length := by
      have h2 := length_toList s._eventsButtonUp
      rw [lBU] at h2
      exact h2.symm
    have hfml := List.length_filterMap_le qBU q
    obtain ⟨hA1, hA2, hA3⟩ := pushSet_spec s._allEvents ⟨EventBufferTag.buttonUp⟩ wfA
      (by omega)
    obtain ⟨hB1, hB2, hB3⟩ := pushSet_spec s._eventsButtonUp ⟨e⟩ wfBU (by omega)
    unfold _addEventsButtonUp
    rw [if_neg hdne]
    dsimp only
    refine ⟨rfl, ?_, rfl, rfl⟩
    refine ⟨hd, hA2, wfBD, hB2, wfDT, wfT, wfMT, ?_, ?_, ?_, ?_, ?_, ?_⟩
    · rw [hA1, lA, List.map_append]
      rfl
    · rw [List.filterMap_append]
      simpa [qBD] using lBD
    · rw [hB1, lBU, List.filterMap_append]
      rfl
    · rw [List.filterMap_append]
      simpa [qDT] using lDT
    · rw [List.filterMap_append]
      simpa [qTouch] using lT
    · rw [List.filterMap_append]
      simpa [qMT] using lMT
  | doubleTap t =>
    have happ : applyCapture (Capture.doubleTap t) s = _addEventsDoubleTap t s := rfl
    have hqe : qstep s._previousPinchSquaredDistance s._previousMultiTouchPanPosition q
        (Capture.doubleTap t) = q ++ [QEntry.doubleTap ⟨t⟩] := rfl
    rw [happ, hqe]
    rw [hqe] at hcap
    have hq49 : q.length < 50 := by
      rw [List.length_append] at hcap
      simp at hcap
      omega
    have hldt : s._eventsDoubleTap._length = (q.filterMap qDT).length := by
      have h2 := length_toList s._eventsDoubleTap
      rw [lDT] at h2
      exact h2.symm
    have hfml := List.length_filterMap_le qDT q
    obtain ⟨hA1, hA2, hA3⟩ := pushSet_spec s._allEvents ⟨EventBufferTag.doubleTap⟩ wfA
      (by omega)
    obtain ⟨hB1, hB2, hB3⟩ := pushSet_spec s._eventsDoubleTap ⟨t⟩ wfDT (by omega)
    unfold _addEventsDoubleTap
    rw [if_neg hdne]
    dsimp only
    refine ⟨rfl, ?_, rfl, rfl⟩
    refine ⟨hd, hA2, wfBD, wfBU, hB2, wfT, wfMT, ?_, ?_, ?_, ?_, ?_, ?_⟩
    · rw [hA1, lA, List.map_append]
      rfl
    · rw [List.filterMap_append]
      simpa [qBD] using lBD
    · rw [List.filterMap_append]
      simpa [qBU] using lBU
    · rw [hB1, lDT, List.filterMap_append]
      rfl
    · rw [List.filterMap_append]
      simpa [qTouch] using lT
    · rw [List.filterMap_append]
      simpa [qMT] using lMT
  | touch p dx dy =>
    have happ : applyCapture (Capture.touch p dx dy) s = _addEventsTouch p dx dy s := rfl
    rw [happ]
    by_cases hco : COALESCE = true ∧ 0 < s._allEvents._length ∧
        s._allEvents.readPushed = some ⟨EventBufferTag.touch⟩
    · -- the newest undrained entry is a touch entry: merge in place
      obtain ⟨-, hpos, hread⟩ := hco
      have hqne : q ≠ [] := by
        intro h0
        rw [h0] at hlenA
        simp at hlenA
        omega
      have hrp := readPushed_allEvents hinv' hqne
      obtain ⟨e0, he0⟩ := Option.isSome_iff_exists.mp ((List.getLast?_isSome).mpr hqne)
      rw [he0] at hrp
      rw [hread] at hrp
      simp at hrp
      cases e0 with
      | touch et =>
        obtain ⟨ys, hys⟩ := List.getLast?_eq_some_iff.mp he0
        subst hys
        have hq : qstep s._previousPinchSquaredDistance s._previousMultiTouchPanPosition
            (ys ++ [QEntry.touch et]) (Capture.touch p dx dy)
            = ys ++ [QEntry.touch ⟨p, et.offsetX + dx, et.offsetY + dy⟩] := by
          unfold qstep
          rw [he0]
          dsimp only
          rw [List.dropLast_concat]
        have hlT : toList s._eventsTouch = (ys.filterMap qTouch) ++ [et] := by
          rw [lT, List.filterMap_append]
          simp [qTouch]
        have hTpos : 0 < s._eventsTouch._length := by
          have h2 := length_toList s._eventsTouch
          rw [hlT] at h2
          simp at h2
          omega
        obtain ⟨hM1, hM2, hM3⟩ := modifyLast_spec s._eventsTouch
          (fun e => { e with point := p, offsetX := e.offsetX + dx, offsetY := e.offsetY + dy })
          wfT hTpos
        have hlastval : ((toList s._eventsTouch)[s._eventsTouch._length - 1]?).getD default
            = et := by
          have h2 := length_toList s._eventsTouch
          rw [hlT] at h2
          rw [hlT]
          have e3 : s._eventsTouch._length - 1 = (ys.filterMap qTouch).length := by
            simp at h2
            omega
          rw [e3, List.getElem?_concat_length]
          rfl
        rw [hlastval] at hM1
        rw [hlT, List.dropLast_concat] at hM1
        unfold _addEventsTouch
        rw [if_neg hdne, if_pos ⟨rfl, hpos, hread⟩]
        dsimp only
        rw [hq]
        refine ⟨rfl, ?_, rfl, rfl⟩
        refine ⟨hd, wfA, wfBD, wfBU, wfDT, hM2, wfMT, ?_, ?_, ?_, ?_, ?_, ?_⟩
        · rw [lA, List.map_append, List.map_append]
          rfl
        · rw [List.filterMap_append]
          rw [List.filterMap_append] at lBD
          simpa [qBD] using lBD
        · rw [List.filterMap_append]
          rw [List.filterMap_append] at lBU
          simpa [qBU] using lBU
        · rw [List.filterMap_append]
          rw [List.filterMap_append] at lDT
          simpa [qDT] using lDT
        · rw [hM1, List.filterMap_append]
          simp [qTouch]
        · rw [List.filterMap_append]
          rw [List.filterMap_append] at lMT
          simpa [qMT] using lMT
      | buttonDown e1 => simp [tagEntry, qTag] at hrp
      | buttonUp e1 => simp [tagEntry, qTag] at hrp
      | doubleTap e1 => simp [tagEntry, qTag] at hrp
      | multiTouch e1 => simp [tagEntry, qTag] at hrp
    · -- no coalescing: push a fresh touch slot and a fresh order tag
      have hq : qstep s._previousPinchSquaredDistance s._previousMultiTouchPanPosition q
          (Capture.touch p dx dy) = q ++ [QEntry.touch ⟨p, dx, dy⟩] := by
        unfold qstep
        rcases hlast : q.getLast? with _ | e0
        · dsimp only
        · cases e0 with
          | touch et =>
            exfalso
            apply hco
            have hqne : q ≠ [] := by
              intro h0
              rw [h0] at hlast
              simp at hlast
            have hrp := readPushed_allEvents hinv' hqne
            rw [hlast] at hrp
            refine ⟨rfl, ?_, ?_⟩
            · rw [hlenA]
              exact List.length_pos.mpr hqne
            · rw [hrp]
              rfl
          | buttonDown e1 => dsimp only
          | buttonUp e1 => dsimp only
          | doubleTap e1 => dsimp only
          | multiTouch e1 => dsimp only
      rw [hq]
      rw [hq] at hcap
      have hq49 : q.length < 50 := by
        rw [List.length_append] at hcap
        simp at hcap
        omega
      have hlt : s._eventsTouch._length = (q.filterMap qTouch).length := by
        have h2 := length_toList s._eventsTouch
        rw [lT] at h2
        exact h2.symm
      have hfml := List.length_filterMap_le qTouch q
      obtain ⟨hA1, hA2, hA3⟩ := pushSet_spec s._allEvents ⟨EventBufferTag.touch⟩ wfA
        (by omega)
      obtain ⟨hB1, hB2, hB3⟩ := pushSet_spec s._eventsTouch ⟨p, dx, dy⟩ wfT (by omega)
      unfold _addEventsTouch
      rw [if_neg hdne, if_neg hco]
      dsimp only
      refine ⟨rfl, ?_, rfl, rfl⟩
      refine ⟨hd, hA2, wfBD, wfBU, wfDT, hB2, wfMT, ?_, ?_, ?_, ?_, ?_, ?_⟩
      · rw [hA1, lA, List.map_append]
        rfl
      · rw [List.filterMap_append]
        simpa [qBD] using lBD
      · rw [List.filterMap_append]
        simpa [qBU] using lBU
      · rw [List.filterMap_append]
        simpa [qDT] using lDT
      · rw [hB1, lT, List.filterMap_append]
        rfl
      · rw [List.filterMap_append]
        simpa [qMT] using lMT
  | multiTouch a b pp pd pm pan =>
    have happ : applyCapture (Capture.multiTouch a b pp pd pm pan) s
        = _addEventsMultiTouch a b pp pd pm pan s := rfl
    rw [happ]
    by_cases hco : COALESCE = true ∧ 0 < s._allEvents._length ∧
        s._allEvents.readPushed = some ⟨EventBufferTag.multiTouch⟩
    · obtain ⟨-, hpos, hread⟩ := hco
      have hqne : q ≠ [] := by
        intro h0
        rw [h0] at hlenA
        simp at hlenA
        omega
      have hrp := readPushed_allEvents hinv' hqne
      obtain ⟨e0, he0⟩ := Option.isSome_iff_exists.mp ((List.getLast?_isSome).mpr hqne)
      rw [he0] at hrp
      rw [hread] at hrp
      simp at hrp
      cases e0 with
      | multiTouch et =>
        obtain ⟨ys, hys⟩ := List.getLast?_eq_some_iff.mp he0
        subst hys
        have hq : qstep s._previousPinchSquaredDistance s._previousMultiTouchPanPosition
            (ys ++ [QEntry.multiTouch et]) (Capture.multiTouch a b pp pd pm pan)
            = ys ++ [QEntry.multiTouch
                { et with pointA := a, pointB := b
                          pinchSquaredDistance := et.pinchSquaredDistance + pd
                          multiTouchPanPosition := pan }] := by
          unfold qstep
          rw [he0]
          dsimp only
          rw [List.dropLast_concat]
        have hlMT : toList s._eventsMultiTouch = (ys.filterMap qMT) ++ [et] := by
          rw [lMT, List.filterMap_append]
          simp [qMT]
        have hMTpos : 0 < s._eventsMultiTouch._length := by
          have h2 := length_toList s._eventsMultiTouch
          rw [hlMT] at h2
          simp at h2
          omega
        obtain ⟨hM1, hM2, hM3⟩ := modifyLast_spec s._eventsMultiTouch
          (fun e => { e with pointA := a, pointB := b
                             pinchSquaredDistance := e.pinchSquaredDistance + pd
                             multiTouchPanPosition := pan })
          wfMT hMTpos
        have hlastval : ((toList s._eventsMultiTouch)[s._eventsMultiTouch._length - 1]?).getD
            default = et := by
          have h2 := length_toList s._eventsMultiTouch
          rw [hlMT] at h2
          rw [hlMT]
          have e3 : s._eventsMultiTouch._length - 1 = (ys.filterMap qMT).length := by
            simp at h2
            omega
          rw [e3, List.getElem?_concat_length]
          rfl
        rw [hlastval] at hM1
        rw [hlMT, List.dropLast_concat] at hM1
        unfold _addEventsMultiTouch
        rw [if_neg hdne, if_pos ⟨rfl, hpos, hread⟩]
        dsimp only
        rw [hq]
        refine ⟨rfl, ?_, rfl, rfl⟩
        refine ⟨hd, wfA, wfBD, wfBU, wfDT, wfT, hM2, ?_, ?_, ?_, ?_, ?_, ?_⟩
        · rw [lA, List.map_append, List.map_append]
          rfl
        · rw [List.filterMap_append]
          rw [List.filterMap_append] at lBD
          simpa [qBD] using lBD
        · rw [List.filterMap_append]
          rw [List.filterMap_append] at lBU
          simpa [qBU] using lBU
        · rw [List.filterMap_append]
          rw [List.filterMap_append] at lDT
          simpa [qDT] using lDT
        · rw [List.filterMap_append]
          rw [List.filterMap_append] at lT
          simpa [qTouch] using lT
        · rw [hM1, List.filterMap_append]
          simp [qMT]
      | buttonDown e1 => simp [tagEntry, qTag] at hrp
      | buttonUp e1 => simp [tagEntry, qTag] at hrp
      | doubleTap e1 => simp [tagEntry, qTag] at hrp
      | touch e1 => simp [tagEntry, qTag] at hrp
    · have hq : qstep s._previousPinchSquaredDistance s._previousMultiTouchPanPosition q
          (Capture.multiTouch a b pp pd pm pan)
          = q ++ [QEntry.multiTouch ⟨a, b, s._previousPinchSquaredDistance, pd,
              s._previousMultiTouchPanPosition, pan⟩] := by
        unfold qstep
        rcases hlast : q.getLast? with _ | e0
        · dsimp only
        · cases e0 with
          | multiTouch et =>
            exfalso
            apply hco
            have hqne : q ≠ [] := by
              intro h0
              rw [h0] at hlast
              simp at hlast
            have hrp := readPushed_allEvents hinv' hqne
            rw [hlast] at hrp
            refine ⟨rfl, ?_, ?_⟩
            · rw [hlenA]
              exact List.length_pos.mpr hqne
            · rw [hrp]
              rfl
          | buttonDown e1 => dsimp only
          | buttonUp e1 => dsimp only
          | doubleTap e1 => dsimp only
          | touch e1 => dsimp only
      rw [hq]
      rw [hq] at hcap
      have hq49 : q.length < 50 := by
        rw [List.length_append] at hcap
        simp at hcap
        omega
      have hlmt : s._eventsMultiTouch._length = (q.filterMap qMT).length := by
        have h2 := length_toList s._eventsMultiTouch
        rw [lMT] at h2
        exact h2.symm
      have hfml := List.length_filterMap_le qMT q
      obtain ⟨hA1, hA2, hA3⟩ := pushSet_spec s._allEvents ⟨EventBufferTag.multiTouch⟩ wfA
        (by omega)
      obtain ⟨hB1, hB2, hB3⟩ := pushSet_spec s._eventsMultiTouch
        ⟨a, b, s._previousPinchSquaredDistance, pd, s._previousMultiTouchPanPosition, pan⟩
        wfMT (by omega)
      unfold _addEventsMultiTouch
      rw [if_neg hdne, if_neg hco]
      dsimp only
      refine ⟨rfl, ?_, rfl, rfl⟩
      refine ⟨hd, hA2, wfBD, wfBU, wfDT, wfT, hB2, ?_, ?_, ?_, ?_, ?_, ?_⟩
      · rw [hA1, lA, List.map_append]
        rfl
      · rw [List.filterMap_append]
        simpa [qBD] using lBD
      · rw [List.filterMap_append]
        simpa [qBU] using lBU
      · rw [List.filterMap_append]
        simpa [qDT] using lDT
      · rw [List.filterMap_append]
        simpa [qTouch] using lT
      · rw [hB1, lMT, List.filterMap_append]
        rfl

theorem qstep_length_ge (pp : Int) (pm : Option PointerTouch) (q : List QEntry)
    (c : Capture) : q.length ≤ (qstep pp pm q c).length := by
  unfold qstep
  cases c with
  | buttonDown e => simp
  | buttonUp e => simp
  | doubleTap t => simp
  | touch p dx dy =>
    rcases hlast : q.getLast? with _ | e0
    · simp
    · have hqne : q ≠ [] := by
        intro h0
        rw [h0] at hlast
        simp at hlast
      have hpos : 0 < q.length := List.length_pos.mpr hqne
      cases e0 <;> simp [List.length_dropLast] <;> omega
  | multiTouch a b pp2 pd pm2 pan =>
    rcases hlast : q.getLast? with _ | e0
    · simp
    · have hqne : q ≠ [] := by
        intro h0
        rw [h0] at hlast
        simp at hlast
      have hpos : 0 < q.length := List.length_pos.mpr hqne
      cases e0 <;> simp [List.length_dropLast] <;> omega

theorem foldl_qstep_length_mono (pp : Int) (pm : Option PointerTouch) (cs : List Capture) :
    ∀ q : List QEntry, q.length ≤ (cs.foldl (qstep pp pm) q).length := by
  induction cs with
  | nil => intro q; simp
  | cons c cs ih =>
    intro q
    have h1 := qstep_length_ge pp pm q c
    have h2 := ih (qstep pp pm q c)
    simpa using Nat.le_trans h1 h2

/-- A whole deferred capture phase refines the abstract fold, provided the
final coalesced queue fits in capacity. -/
theorem applyCaptures_steps (cs : List Capture) : ∀ (s : InputState) (q : List QEntry),
    SysInv s q →
    (cs.foldl (qstep s._previousPinchSquaredDistance s._previousMultiTouchPanPosition) q).length
      ≤ 50 →
    (applyCaptures cs s).2 = [] ∧
    SysInv (applyCaptures cs s).1
      (cs.foldl (qstep s._previousPinchSquaredDistance s._previousMultiTouchPanPosition) q) ∧
    (applyCaptures cs s).1._previousPinchSquaredDistance = s._previousPinchSquaredDistance ∧
    (applyCaptures cs s).1._previousMultiTouchPanPosition = s._previousMultiTouchPanPosition := by
  induction cs with
  | nil =>
    intro s q hinv hcap
    exact ⟨rfl, hinv, rfl, rfl⟩
  | cons c cs ih =>
    intro s q hinv hcap
    rw [List.foldl_cons] at hcap
    have hstep1 : (qstep s._previousPinchSquaredDistance s._previousMultiTouchPanPosition q
        c).length ≤ 50 := by
      have := foldl_qstep_length_mono s._previousPinchSquaredDistance
        s._previousMultiTouchPanPosition cs
        (qstep s._previousPinchSquaredDistance s._previousMultiTouchPanPosition q c)
      omega
    obtain ⟨h1, h2, h3, h4⟩ := applyCapture_step c s q hinv hstep1
    have hih := ih (applyCapture c s).1
      (qstep s._previousPinchSquaredDistance s._previousMultiTouchPanPosition q c) h2
      (by rw [h3, h4]; exact hcap)
    rw [h3, h4] at hih
    obtain ⟨g1, g2, g3, g4⟩ := hih
    have happ : applyCaptures (c :: cs) s
        = ((applyCaptures cs (applyCapture c s).1).1,
           (applyCapture c s).2 ++ (applyCaptures cs (applyCapture c s).1).2) := rfl
    rw [happ]
    rw [List.foldl_cons]
    exact ⟨by rw [h1, g1]; rfl, g2, g3, g4⟩

/-- Draining a state that refines the abstract queue `q` produces exactly
the interleaved handler and observer calls of `q`, in order, and empties
the order buffer, restoring the refinement at the empty queue. -/
theorem drain_spec (q : List QEntry) : ∀ (s : InputState), SysInv s q →
    (checkInputs s).2 = outputsOfQ q ∧
    SysInv (checkInputs s).1 [] := by
  induction q with
  | nil =>
    intro s hinv
    have hlen : s._allEvents._length = 0 := SysInv_allEvents_length hinv
    unfold checkInputs
    rw [hlen]
    exact ⟨rfl, hinv⟩
  | cons e rest ih =>
    intro s hinv
    have hinv' := hinv
    obtain ⟨hd, wfA, wfBD, wfBU, wfDT, wfT, wfMT, lA, lBD, lBU, lDT, lT, lMT⟩ := hinv
    have hlenA : s._allEvents._length = rest.length + 1 := by
      have h := SysInv_allEvents_length hinv'
      simpa using h
    obtain ⟨pA1, pA2, pA3, pA4, pA5, pA6⟩ := pop_spec s._allEvents wfA (by omega)
    rcases hbp : s._allEvents.pop with ⟨tagOpt, ae⟩
    rw [hbp] at pA1 pA2 pA3 pA4
    dsimp only at pA1 pA2 pA3 pA4
    rw [lA] at pA1 pA2
    simp only [List.map_cons, List.getElem?_cons_zero, List.tail_cons] at pA1 pA2
    unfold checkInputs
    rw [hlenA, drainLoop]
    rw [if_pos (by omega), hbp]
    dsimp only
    rw [pA1]
    dsimp only
    cases e with
    | buttonDown px =>
      have htag : tagEntry (QEntry.buttonDown px) = ⟨EventBufferTag.buttonDown⟩ := rfl
      rw [htag]
      dsimp only
      have hlX : toList s._eventsButtonDown = px :: rest.filterMap qBD := by
        rw [lBD]
        simp [List.filterMap_cons, qBD]
      have hpos : 0 < s._eventsButtonDown._length := by
        have h2 := length_toList s._eventsButtonDown
        rw [hlX] at h2
        simp at h2
        omega
      obtain ⟨pB1, pB2, pB3, pB4, pB5, pB6⟩ := pop_spec s._eventsButtonDown wfBD hpos
      rcases hbk : s._eventsButtonDown.pop with ⟨evOpt, bX⟩
      rw [hbk] at pB1 pB2 pB3 pB4
      dsimp only at pB1 pB2 pB3 pB4
      rw [hlX] at pB1 pB2
      simp only [List.getElem?_cons_zero, List.tail_cons] at pB1 pB2
      rw [pB1]
      dsimp only
      have hnext : SysInv { s with _allEvents := ae, _eventsButtonDown := bX } rest := by
        refine ⟨hd, pA3, pB3, wfBU, wfDT, wfT, wfMT, pA2, pB2, ?_, ?_, ?_, ?_⟩
        · rw [lBU] at *
          simpa [List.filterMap_cons, qBU] using lBU
        · simpa [List.filterMap_cons, qDT] using lDT
        · simpa [List.filterMap_cons, qTouch] using lT
        · simpa [List.filterMap_cons, qMT] using lMT
      have hflen : rest.length = ({ s with _allEvents := ae, _eventsButtonDown := bX } : InputState)._allEvents._length := by
        dsimp only
        omega
      obtain ⟨ihl, ihs⟩ := ih { s with _allEvents := ae, _eventsButtonDown := bX } hnext
      unfold checkInputs at ihl ihs
      rw [← hflen] at ihl ihs
      rw [ihl]
      exact ⟨rfl, ihs⟩
    | buttonUp px =>
      have htag : tagEntry (QEntry.buttonUp px) = ⟨EventBufferTag.buttonUp⟩ := rfl
      rw [htag]
      dsimp only
      have hlX : toList s._eventsButtonUp = px :: rest.filterMap qBU := by
        rw [lBU]
        simp [List.filterMap_cons, qBU]
      have hpos : 0 < s._eventsButtonUp._length := by
        have h2 := length_toList s._eventsButtonUp
        rw [hlX] at h2
        simp at h2
        omega
      obtain ⟨pB1, pB2, pB3, pB4, pB5, pB6⟩ := pop_spec s._eventsButtonUp wfBU hpos
      rcases hbk : s._eventsButtonUp.pop with ⟨evOpt, bX⟩
      rw [hbk] at pB1 pB2 pB3 pB4
      dsimp only at pB1 pB2 pB3 pB4
      rw [hlX] at pB1 pB2
      simp only [List.getElem?_cons_zero, List.tail_cons] at pB1 pB2
      rw [pB1]
      dsimp only
      have hnext : SysInv { s with _allEvents := ae, _eventsButtonUp := bX } rest := by
        refine ⟨hd, pA3, wfBD, pB3, wfDT, wfT, wfMT, pA2, ?_, pB2, ?_, ?_, ?_⟩
        · simpa [List.filterMap_cons, qBD] using lBD
        · simpa [List.filterMap_cons, qDT] using lDT
        · simpa [List.filterMap_cons, qTouch] using lT
        · simpa [List.filterMap_cons, qMT] using lMT
      have hflen : rest.length = ({ s with _allEvents := ae, _eventsButtonUp := bX } : InputState)._allEvents._length := by
        dsimp only
        omega
      obtain ⟨ihl, ihs⟩ := ih { s with _allEvents := ae, _eventsButtonUp := bX } hnext
      unfold checkInputs at ihl ihs
      rw [← hflen] at ihl ihs
      rw [ihl]
      exact ⟨rfl, ihs⟩
    | doubleTap px =>
      have htag : tagEntry (QEntry.doubleTap px) = ⟨EventBufferTag.doubleTap⟩ := rfl
      rw [htag]
      dsimp only
      have hlX : toList s._eventsDoubleTap = px :: rest.filterMap qDT := by
        rw [lDT]
        simp [List.filterMap_cons, qDT]
      have hpos : 0 < s._eventsDoubleTap._length := by
        have h2 := length_toList s._eventsDoubleTap
        rw [hlX] at h2
        simp at h2
        omega
      obtain ⟨pB1, pB2, pB3, pB4, pB5, pB6⟩ := pop_spec s._eventsDoubleTap wfDT hpos
      rcases hbk : s._eventsDoubleTap.pop with ⟨evOpt, bX⟩
      rw [hbk] at pB1 pB2 pB3 pB4
      dsimp only at pB1 pB2 pB3 pB4
      rw [hlX] at pB1 pB2
      simp only [List.getElem?_cons_zero, List.tail_cons] at pB1 pB2
      rw [pB1]
      dsimp only
      have hnext : SysInv { s with _allEvents := ae, _eventsDoubleTap := bX } rest := by
        refine ⟨hd, pA3, wfBD, wfBU, pB3, wfT, wfMT, pA2, ?_, ?_, pB2, ?_, ?_⟩
        · simpa [List.filterMap_cons, qBD] using lBD
        · simpa [List.filterMap_cons, qBU] using lBU
        · simpa [List.filterMap_cons, qTouch] using lT
        · simpa [List.filterMap_cons, qMT] using lMT
      have hflen : rest.length = ({ s with _allEvents := ae, _eventsDoubleTap := bX } : InputState)._allEvents._length := by
        dsimp only
        omega
      obtain ⟨ihl, ihs⟩ := ih { s with _allEvents := ae, _eventsDoubleTap := bX } hnext
      unfold checkInputs at ihl ihs
      rw [← hflen] at ihl ihs
      rw [ihl]
      exact ⟨rfl, ihs⟩
    | touch px =>
      have htag : tagEntry (QEntry.touch px) = ⟨EventBufferTag.touch⟩ := rfl
      rw [htag]
      dsimp only
      have hlX : toList s._eventsTouch = px :: rest.filterMap qTouch := by
        rw [lT]
        simp [List.filterMap_cons, qTouch]
      have hpos : 0 < s._eventsTouch._length := by
        have h2 := length_toList s._eventsTouch
        rw [hlX] at h2
        simp at h2
        omega
      obtain ⟨pB1, pB2, pB3, pB4, pB5, pB6⟩ := pop_spec s._eventsTouch wfT hpos
      rcases hbk : s._eventsTouch.pop with ⟨evOpt, bX⟩
      rw [hbk] at pB1 pB2 pB3 pB4
      dsimp only at pB1 pB2 pB3 pB4
      rw [hlX] at pB1 pB2
      simp only [List.getElem?_cons_zero, List.tail_cons] at pB1 pB2
      rw [pB1]
      dsimp only
      have hnext : SysInv { s with _allEvents := ae, _eventsTouch := bX } rest := by
        refine ⟨hd, pA3, wfBD, wfBU, wfDT, pB3, wfMT, pA2, ?_, ?_, ?_, pB2, ?_⟩
        · simpa [List.filterMap_cons, qBD] using lBD
        · simpa [List.filterMap_cons, qBU] using lBU
        · simpa [List.filterMap_cons, qDT] using lDT
        · simpa [List.filterMap_cons, qMT] using lMT
      have hflen : rest.length = ({ s with _allEvents := ae, _eventsTouch := bX } : InputState)._allEvents._length := by
        dsimp only
        omega
      obtain ⟨ihl, ihs⟩ := ih { s with _allEvents := ae, _eventsTouch := bX } hnext
      unfold checkInputs at ihl ihs
      rw [← hflen] at ihl ihs
      rw [ihl]
      exact ⟨rfl, ihs⟩
    | multiTouch px =>
      have htag : tagEntry (QEntry.multiTouch px) = ⟨EventBufferTag.multiTouch⟩ := rfl
      rw [htag]
      dsimp only
      have hlX : toList s._eventsMultiTouch = px :: rest.filterMap qMT := by
        rw [lMT]
        simp [List.filterMap_cons, qMT]
      have hpos : 0 < s._eventsMultiTouch._length := by
        have h2 := length_toList s._eventsMultiTouch
        rw [hlX] at h2
        simp at h2
        omega
      obtain ⟨pB1, pB2, pB3, pB4, pB5, pB6⟩ := pop_spec s._eventsMultiTouch wfMT hpos
      rcases hbk : s._eventsMultiTouch.pop with ⟨evOpt, bX⟩
      rw [hbk] at pB1 pB2 pB3 pB4
      dsimp only at pB1 pB2 pB3 pB4
      rw [hlX] at pB1 pB2
      simp only [List.getElem?_cons_zero, List.tail_cons] at pB1 pB2
      rw [pB1]
      dsimp only
      have hnext : SysInv { s with _allEvents := ae, _eventsMultiTouch := bX, _previousPinchSquaredDistance := px.pinchSquaredDistance, _previousMultiTouchPanPosition := px.multiTouchPanPosition } rest := by
        refine ⟨hd, pA3, wfBD, wfBU, wfDT, wfT, pB3, pA2, ?_, ?_, ?_, ?_, pB2⟩
        · simpa [List.filterMap_cons, qBD] using lBD
        · simpa [List.filterMap_cons, qBU] using lBU
        · simpa [List.filterMap_cons, qDT] using lDT
        · simpa [List.filterMap_cons, qTouch] using lT
      have hflen : rest.length = ({ s with _allEvents := ae, _eventsMultiTouch := bX, _previousPinchSquaredDistance := px.pinchSquaredDistance, _previousMultiTouchPanPosition := px.multiTouchPanPosition } : InputState)._allEvents._length := by
        dsimp only
        omega
      obtain ⟨ihl, ihs⟩ := ih { s with _allEvents := ae, _eventsMultiTouch := bX, _previousPinchSquaredDistance := px.pinchSquaredDistance, _previousMultiTouchPanPosition := px.multiTouchPanPosition } hnext
      unfold checkInputs at ihl ihs
      rw [← hflen] at ihl ihs
      rw [ihl]
      exact ⟨rfl, ihs⟩

theorem handlerOf_outputsOfQ (q : List QEntry) :
    (outputsOfQ q).filterMap handlerOf = q.map dispatchOfQ := by
  induction q with
  | nil => rfl
  | cons e rest ih =>
    simp only [outputsOfQ, List.cons_bind] at *
    simp [List.filterMap_append, handlerOf, ih, List.filterMap_cons]

theorem observerOf_outputsOfQ (q : List QEntry) :
    (outputsOfQ q).filterMap observerOf = q.map dispatchOfQ := by
  induction q with
  | nil => rfl
  | cons e rest ih =>
    simp only [outputsOfQ, List.cons_bind] at *
    simp [List.filterMap_append, observerOf, ih, List.filterMap_cons]

theorem qstep_length_eq (pp : Int) (pm : Option PointerTouch) (q : List QEntry)
    (c : Capture) :
    (qstep pp pm q c).length + (if qMerges q c then 1 else 0) = q.length + 1 := by
  unfold qstep qMerges
  cases c with
  | buttonDown e => simp
  | buttonUp e => simp
  | doubleTap t => simp
  | touch p dx dy =>
    rcases hlast : q.getLast? with _ | e0
    · simp
    · have hqne : q ≠ [] := by
        intro h0
        rw [h0] at hlast
        simp at hlast
      have hpos : 0 < q.length := List.length_pos.mpr hqne
      cases e0 <;> simp [List.length_dropLast] <;> omega
  | multiTouch a b pp2 pd pm2 pan =>
    rcases hlast : q.getLast? with _ | e0
    · simp
    · have hqne : q ≠ [] := by
        intro h0
        rw [h0] at hlast
        simp at hlast
      have hpos : 0 < q.length := List.length_pos.mpr hqne
      cases e0 <;> simp [List.length_dropLast] <;> omega

theorem mergeCount_spec (pp : Int) (pm : Option PointerTouch) (cs : List Capture) :
    ∀ (q : List QEntry) (k : Nat),
    (cs.foldl (fun acc c => (qstep pp pm acc.1 c, acc.2 + if qMerges acc.1 c then 1 else 0))
      (q, k)).1 = cs.foldl (qstep pp pm) q ∧
    (cs.foldl (fun acc c => (qstep pp pm acc.1 c, acc.2 + if qMerges acc.1 c then 1 else 0))
      (q, k)).2 + (cs.foldl (qstep pp pm) q).length = k + q.length + cs.length := by
  induction cs with
  | nil =>
    intro q k
    simp
  | cons c cs ih =>
    intro q k
    simp only [List.foldl_cons]
    obtain ⟨ih1, ih2⟩ := ih (qstep pp pm q c) (k + if qMerges q c then 1 else 0)
    refine ⟨ih1, ?_⟩
    have hq := qstep_length_eq pp pm q c
    simp only [List.length_cons]
    by_cases hmm : qMerges q c = true <;> simp [hmm] at hq ih2 ⊢ <;> omega

theorem coalesce_length_add_mergeCount (pp : Int) (pm : Option PointerTouch)
    (cs : List Capture) :
    (coalesceList pp pm cs).length + mergeCount pp pm cs = cs.length := by
  have h := (mergeCount_spec pp pm cs [] 0).2
  unfold mergeCount coalesceList
  simp at h
  omega

theorem filterMap_kind_partition (q : List QEntry) :
    (q.filterMap qBD).length + (q.filterMap qBU).length + (q.filterMap qDT).length
      + (q.filterMap qTouch).length + (q.filterMap qMT).length = q.length := by
  induction q with
  | nil => rfl
  | cons e rest ih =>
    cases e <;> simp [List.filterMap_cons, qBD, qBU, qDT, qTouch, qMT] <;> omega

theorem applyCapture_immediate (c : Capture) (s : InputState)
    (h : s._defferCallback = false) :
    applyCapture c s = (s, [captureDispatch c]) := by
  cases c with
  | buttonDown e =>
    show _addEventsButtonDown e s = _
    unfold _addEventsButtonDown
    rw [if_pos h]
    rfl
  | buttonUp e =>
    show _addEventsButtonUp e s = _
    unfold _addEventsButtonUp
    rw [if_pos h]
    rfl
  | doubleTap t =>
    show _addEventsDoubleTap t s = _
    unfold _addEventsDoubleTap
    rw [if_pos h]
    rfl
  | touch p dx dy =>
    show _addEventsTouch p dx dy s = _
    unfold _addEventsTouch
    rw [if_pos h]
    rfl
  | multiTouch a b pp pd pm pan =>
    show _addEventsMultiTouch a b pp pd pm pan s = _
    unfold _addEventsMultiTouch
    rw [if_pos h]
    rfl

theorem applyCaptures_immediate (cs : List Capture) : ∀ (s : InputState),
    s._defferCallback = false →
    applyCaptures cs s = (s, cs.map captureDispatch) := by
  induction cs with
  | nil =>
    intro s h
    rfl
  | cons c cs ih =>
    intro s h
    have h1 := applyCapture_immediate c s h
    have happ : applyCaptures (c :: cs) s
        = ((applyCaptures cs (applyCapture c s).1).1,
           (applyCapture c s).2 ++ (applyCaptures cs (applyCapture c s).1).2) := rfl
    rw [happ, h1]
    dsimp only
    rw [ih s h]
    rfl

theorem touchAccum_offsetX (ds : List (Option PointerTouch × Int × Int)) :
    ∀ e : ICameraInputTouchEvent,
    (touchAccum e ds).offsetX = e.offsetX + (ds.map fun d => d.2.1).sum := by
  induction ds with
  | nil => intro e; simp [touchAccum]
  | cons d ds ih =>
    intro e
    have h := ih ⟨d.1, e.offsetX + d.2.1, e.offsetY + d.2.2⟩
    simp only [touchAccum, List.foldl_cons] at *
    rw [h]
    simp
    omega

theorem touchAccum_offsetY (ds : List (Option PointerTouch × Int × Int)) :
    ∀ e : ICameraInputTouchEvent,
    (touchAccum e ds).offsetY = e.offsetY + (ds.map fun d => d.2.2).sum := by
  induction ds with
  | nil => intro e; simp [touchAccum]
  | cons d ds ih =>
    intro e
    have h := ih ⟨d.1, e.offsetX + d.2.1, e.offsetY + d.2.2⟩
    simp only [touchAccum, List.foldl_cons] at *
    rw [h]
    simp
    omega

theorem touchAccum_point (ds : List (Option PointerTouch × Int × Int)) :
    ∀ e : ICameraInputTouchEvent,
    (touchAccum e ds).point = (ds.map fun d => d.1).getLastD e.point := by
  induction ds with
  | nil => intro e; simp [touchAccum]
  | cons d ds ih =>
    intro e
    have h := ih ⟨d.1, e.offsetX + d.2.1, e.offsetY + d.2.2⟩
    simp only [touchAccum, List.foldl_cons] at *
    rw [h, List.map_cons, List.getLastD_cons]

theorem foldl_touch_merge (pp : Int) (pm : Option PointerTouch)
    (ds : List (Option PointerTouch × Int × Int)) :
    ∀ (q : List QEntry) (e : ICameraInputTouchEvent),
    (ds.map fun d => Capture.touch d.1 d.2.1 d.2.2).foldl (qstep pp pm)
        (q ++ [QEntry.touch e])
      = q ++ [QEntry.touch (touchAccum e ds)] := by
  induction ds with
  | nil =>
    intro q e
    simp [touchAccum]
  | cons d ds ih =>
    intro q e
    simp only [List.map_cons, List.foldl_cons]
    have hstep : qstep pp pm (q ++ [QEntry.touch e]) (Capture.touch d.1 d.2.1 d.2.2)
        = q ++ [QEntry.touch ⟨d.1, e.offsetX + d.2.1, e.offsetY + d.2.2⟩] := by
      unfold qstep
      rw [List.getLast?_concat]
      dsimp only
      rw [List.dropLast_concat]
    rw [hstep, ih]
    rfl

theorem qstep_no_merge (pp : Int) (pm : Option PointerTouch) (q : List QEntry)
    (c : Capture) (h : qMerges q c = false) :
    qstep pp pm q c = q ++ [freshEntry pp pm c] := by
  cases c with
  | buttonDown e => rfl
  | buttonUp e => rfl
  | doubleTap t => rfl
  | touch p dx dy =>
    unfold qstep
    unfold qMerges at h
    dsimp only
    dsimp only at h
    rcases hlast : q.getLast? with _ | e0
    · rfl
    · cases e0 with
      | touch e1 =>
        rw [hlast] at h
        simp at h
      | buttonDown e1 => rfl
      | buttonUp e1 => rfl
      | doubleTap e1 => rfl
      | multiTouch e1 => rfl
  | multiTouch a b pp2 pd pm2 pan =>
    unfold qstep
    unfold qMerges at h
    dsimp only
    dsimp only at h
    rcases hlast : q.getLast? with _ | e0
    · rfl
    · cases e0 with
      | multiTouch e1 =>
        rw [hlast] at h
        simp at h
      | buttonDown e1 => rfl
      | buttonUp e1 => rfl
      | doubleTap e1 => rfl
      | touch e1 => rfl

theorem getLast?_append_or {α : Type _} (l1 l2 : List α) :
    (l1 ++ l2).getLast? = l2.getLast?.or l1.getLast? := by
  induction l2 using List.reverseRecOn with
  | nil => simp
  | append_singleton l2 x ih =>
    rw [← List.append_assoc, List.getLast?_concat, List.getLast?_concat]
    rfl

theorem touchSumX_append (l1 l2 : List Dispatch) :
    touchSumX (l1 ++ l2) = touchSumX l1 + touchSumX l2 := by
  simp [touchSumX, List.filterMap_append]

theorem touchSumY_append (l1 l2 : List Dispatch) :
    touchSumY (l1 ++ l2) = touchSumY l1 + touchSumY l2 := by
  simp [touchSumY, List.filterMap_append]

theorem pinchSum_append (l1 l2 : List Dispatch) :
    pinchSum (l1 ++ l2) = pinchSum l1 + pinchSum l2 := by
  simp [pinchSum, List.filterMap_append]

theorem lastPan_append (l1 l2 : List Dispatch) :
    lastPan (l1 ++ l2) = (lastPan l2).or (lastPan l1) := by
  simp only [lastPan, List.filterMap_append]
  rw [getLast?_append_or]

theorem qstep_sums (pp : Int) (pm : Option PointerTouch) (q : List QEntry) (c : Capture) :
    touchSumX ((qstep pp pm q c).map dispatchOfQ)
      = touchSumX (q.map dispatchOfQ) + touchSumX [captureDispatch c] ∧
    touchSumY ((qstep pp pm q c).map dispatchOfQ)
      = touchSumY (q.map dispatchOfQ) + touchSumY [captureDispatch c] ∧
    pinchSum ((qstep pp pm q c).map dispatchOfQ)
      = pinchSum (q.map dispatchOfQ) + pinchSum [captureDispatch c] ∧
    lastPan ((qstep pp pm q c).map dispatchOfQ)
      = (panOfCapture c).or (lastPan (q.map dispatchOfQ)) := by
  by_cases hm : qMerges q c = true
  · -- merge: only touch and multi-touch captures merge
    cases c with
    | buttonDown e => simp [qMerges] at hm
    | buttonUp e => simp [qMerges] at hm
    | doubleTap t => simp [qMerges] at hm
    | touch p dx dy =>
      unfold qMerges at hm
      rcases hlast : q.getLast? with _ | e0
      · rw [hlast] at hm
        simp at hm
      · rw [hlast] at hm
        cases e0 with
        | touch et =>
          obtain ⟨ys, hys⟩ := List.getLast?_eq_some_iff.mp hlast
          subst hys
          have hq : qstep pp pm (ys ++ [QEntry.touch et]) (Capture.touch p dx dy)
              = ys ++ [QEntry.touch ⟨p, et.offsetX + dx, et.offsetY + dy⟩] := by
            unfold qstep
            rw [List.getLast?_concat]
            dsimp only
            rw [List.dropLast_concat]
          rw [hq, List.map_append, List.map_append]
          simp only [List.map_cons, List.map_nil]
          rw [touchSumX_append, touchSumX_append, touchSumY_append, touchSumY_append,
            pinchSum_append, pinchSum_append, lastPan_append, lastPan_append]
          refine ⟨?_, ?_, ?_, ?_⟩
          · show _ = _ + touchSumX [Dispatch.onTouch p dx dy]
            simp [touchSumX, dispatchOfQ]
            omega
          · show _ = _ + touchSumY [Dispatch.onTouch p dx dy]
            simp [touchSumY, dispatchOfQ]
            omega
          · simp [pinchSum, dispatchOfQ, captureDispatch]
          · simp [lastPan, panOfCapture, dispatchOfQ, captureDispatch]
        | buttonDown e1 => simp at hm
        | buttonUp e1 => simp at hm
        | doubleTap e1 => simp at hm
        | multiTouch e1 => simp at hm
    | multiTouch a b pp2 pd pm2 pan =>
      unfold qMerges at hm
      rcases hlast : q.getLast? with _ | e0
      · rw [hlast] at hm
        simp at hm
      · rw [hlast] at hm
        cases e0 with
        | multiTouch et =>
          obtain ⟨ys, hys⟩ := List.getLast?_eq_some_iff.mp hlast
          subst hys
          have hq : qstep pp pm (ys ++ [QEntry.multiTouch et])
              (Capture.multiTouch a b pp2 pd pm2 pan)
              = ys ++ [QEntry.multiTouch
                  { et with pointA := a, pointB := b
                            pinchSquaredDistance := et.pinchSquaredDistance + pd
                            multiTouchPanPosition := pan }] := by
            unfold qstep
            rw [List.getLast?_concat]
            dsimp only
            rw [List.dropLast_concat]
          rw [hq, List.map_append, List.map_append]
          simp only [List.map_cons, List.map_nil]
          rw [touchSumX_append, touchSumX_append, touchSumY_append, touchSumY_append,
            pinchSum_append, pinchSum_append, lastPan_append, lastPan_append]
          refine ⟨?_, ?_, ?_, ?_⟩
          · simp [touchSumX, dispatchOfQ, captureDispatch]
          · simp [touchSumY, dispatchOfQ, captureDispatch]
          · show _ = _ + pinchSum [Dispatch.onMultiTouch a b pp2 pd pm2 pan]
            simp [pinchSum, dispatchOfQ]
            omega
          · simp [lastPan, panOfCapture, dispatchOfQ, captureDispatch]
        | buttonDown e1 => simp at hm
        | buttonUp e1 => simp at hm
        | doubleTap e1 => simp at hm
        | touch e1 => simp at hm
  · -- fresh push
    have hm' : qMerges q c = false := by
      cases hb : qMerges q c
      · rfl
      · exact absurd hb hm
    rw [qstep_no_merge pp pm q c hm', List.map_append]
    simp only [List.map_cons, List.map_nil]
    rw [touchSumX_append, touchSumY_append, pinchSum_append, lastPan_append]
    have e1 : touchSumX [dispatchOfQ (freshEntry pp pm c)] = touchSumX [captureDispatch c] := by
      cases c <;> rfl
    have e2 : touchSumY [dispatchOfQ (freshEntry pp pm c)] = touchSumY [captureDispatch c] := by
      cases c <;> rfl
    have e3 : pinchSum [dispatchOfQ (freshEntry pp pm c)] = pinchSum [captureDispatch c] := by
      cases c <;> rfl
    have e4 : lastPan [dispatchOfQ (freshEntry pp pm c)] = panOfCapture c := by
      cases c <;> rfl
    rw [e1, e2, e3, e4]
    exact ⟨rfl, rfl, rfl, rfl⟩

theorem coalesce_sums (pp : Int) (pm : Option PointerTouch) (cs : List Capture) :
    touchSumX ((coalesceList pp pm cs).map dispatchOfQ) = touchSumX (cs.map captureDispatch) ∧
    touchSumY ((coalesceList pp pm cs).map dispatchOfQ) = touchSumY (cs.map captureDispatch) ∧
    pinchSum ((coalesceList pp pm cs).map dispatchOfQ) = pinchSum (cs.map captureDispatch) ∧
    lastPan ((coalesceList pp pm cs).map dispatchOfQ) = lastPan (cs.map captureDispatch) := by
  induction cs using List.reverseRecOn with
  | nil => exact ⟨rfl, rfl, rfl, rfl⟩
  | append_singleton cs c ih =>
    have hfold : coalesceList pp pm (cs ++ [c]) = qstep pp pm (coalesceList pp pm cs) c := by
      unfold coalesceList
      rw [List.foldl_append]
      rfl
    obtain ⟨s1, s2, s3, s4⟩ := qstep_sums pp pm (coalesceList pp pm cs) c
    obtain ⟨i1, i2, i3, i4⟩ := ih
    rw [hfold, List.map_append]
    simp only [List.map_cons, List.map_nil]
    rw [touchSumX_append, touchSumY_append, pinchSum_append, lastPan_append]
    have e4 : lastPan [captureDispatch c] = panOfCapture c := by
      cases c <;> rfl
    rw [e4, s1, s2, s3, s4, i1, i2, i3, i4]
    exact ⟨rfl, rfl, rfl, rfl⟩

theorem pointerUpPoints_fields (engine : EngineFlags) (evt : PEvent)
    (s : CameraPointersState) :
    (_pointerUpPoints engine evt s).inner = s.inner ∧
    (_pointerUpPoints engine evt s).previousPinchSquaredDistance
      = s.previousPinchSquaredDistance ∧
    (_pointerUpPoints engine evt s).previousMultiTouchPanPosition
      = s.previousMultiTouchPanPosition ∧
    (_pointerUpPoints engine evt s).buttons = s.buttons := by
  unfold _pointerUpPoints
  dsimp only
  by_cases h1 : evt.pointerType = "touch"
  · rw [if_pos h1]
    by_cases h2 : engine._badOS = true
    · rw [if_pos h2]
      exact ⟨rfl, rfl, rfl, rfl⟩
    · rw [if_neg h2]
      rcases s._pointA with _ | a <;> rcases s._pointB with _ | b
      · exact ⟨rfl, rfl, rfl, rfl⟩
      · exact ⟨rfl, rfl, rfl, rfl⟩
      · exact ⟨rfl, rfl, rfl, rfl⟩
      · dsimp only
        by_cases h3 : a.pointerId = evt.pointerId
        · rw [if_pos h3]
          exact ⟨rfl, rfl, rfl, rfl⟩
        · rw [if_neg h3]
          by_cases h4 : b.pointerId = evt.pointerId
          · rw [if_pos h4]
            exact ⟨rfl, rfl, rfl, rfl⟩
          · rw [if_neg h4]
            exact ⟨rfl, rfl, rfl, rfl⟩
  · rw [if_neg h1]
    by_cases h2 : engine._badOS = true
    · rw [if_pos h2]
      exact ⟨rfl, rfl, rfl, rfl⟩
    · rw [if_neg h2]
      rcases s._pointA with _ | a
      · exact ⟨rfl, rfl, rfl, rfl⟩
      · exact ⟨rfl, rfl, rfl, rfl⟩

theorem pointerMove_noop (engine : EngineFlags) (p : PointerInfo)
    (s : CameraPointersState)
    (htype : p.type = PointerEventTypes.POINTERMOVE)
    (hlock : engine.isPointerLock = false)
    (hA : s._pointA = none) (hB : s._pointB = none) :
    (_pointerInput engine p s).1.inner = s.inner ∧
    (_pointerInput engine p s).1._pointA = none ∧
    (_pointerInput engine p s).1._pointB = none ∧
    (_pointerInput engine p s).1.buttons = s.buttons ∧
    (_pointerInput engine p s).2 = [] := by
  unfold _pointerInput
  by_cases hVR : engine.isInVRExclusivePointerMode = true
  · rw [if_pos hVR]
    exact ⟨rfl, hA, hB, rfl, rfl⟩
  · rw [if_neg hVR]
    rw [if_neg (by simp [htype])]
    dsimp only
    rw [if_neg (by simp [hlock])]
    rw [if_neg (by simp [htype]), if_neg (by simp [htype]), if_neg (by simp [htype]),
      if_pos htype]
    rw [hA, hB]
    exact ⟨rfl, rfl, rfl, rfl, rfl⟩

theorem pointerDown_sets_pointA (engine : EngineFlags) (evt : PEvent)
    (s : CameraPointersState)
    (hVR : engine.isInVRExclusivePointerMode = false)
    (hlock : engine.isPointerLock = false)
    (hbtn : evt.button ∈ s.buttons)
    (hA : s._pointA = none) :
    (_pointerInput engine ⟨PointerEventTypes.POINTERDOWN, evt⟩ s).1._pointA
      = some ⟨evt.clientX, evt.clientY, evt.pointerId, evt.pointerType⟩ := by
  unfold _pointerInput
  rw [if_neg (by simp [hVR])]
  rw [if_neg (by simp [hbtn])]
  dsimp only
  rw [if_neg (by simp [hlock])]
  rw [if_pos rfl]
  rw [if_pos hA]

theorem qMerges_nil (c : Capture) : qMerges [] c = false := by
  cases c <;> rfl

theorem qTag_freshEntry (pp : Int) (pm : Option PointerTouch) (c : Capture) :
    qTag (freshEntry pp pm c) = captureKind c := by
  cases c <;> rfl

theorem qMerges_concat_ne (q : List QEntry) (e : QEntry) (c : Capture)
    (h : qTag e ≠ captureKind c) : qMerges (q ++ [e]) c = false := by
  cases c with
  | buttonDown e1 => rfl
  | buttonUp e1 => rfl
  | doubleTap t => rfl
  | touch p dx dy =>
    unfold qMerges
    rw [List.getLast?_concat]
    cases e with
    | touch e1 => exact absurd rfl h
    | buttonDown e1 => rfl
    | buttonUp e1 => rfl
    | doubleTap e1 => rfl
    | multiTouch e1 => rfl
  | multiTouch a b pp pd pm pan =>
    unfold qMerges
    rw [List.getLast?_concat]
    cases e with
    | multiTouch e1 => exact absurd rfl h
    | buttonDown e1 => rfl
    | buttonUp e1 => rfl
    | doubleTap e1 => rfl
    | touch e1 => rfl

theorem touchHandlerOf_nontouch (e : QEntry) (h : qTag e ≠ EventBufferTag.touch) :
    touchHandlerOf (OutEvent.handler (dispatchOfQ e)) = none := by
  cases e with
  | touch e1 => exact absurd rfl h
  | buttonDown e1 => rfl
  | buttonUp e1 => rfl
  | doubleTap e1 => rfl
  | multiTouch e1 => rfl

theorem touchHandlerOf_observer (d : Dispatch) :
    touchHandlerOf (OutEvent.observer d) = none := rfl

/-- The drain loop leaves the order buffer empty whenever the fuel covers
its length, with no well-formedness assumption on any buffer: empty and
malformed pops are skipped, and each iteration strictly shrinks the order
buffer. -/
theorem drainLoop_empties : ∀ (fuel : Nat) (s : InputState),
    s._allEvents._length ≤ fuel →
    (drainLoop fuel s).1._allEvents._length = 0 := by
  intro fuel
  induction fuel with
  | zero =>
    intro s h
    have h0 : s._allEvents._length = 0 := by omega
    rw [drainLoop]
    exact h0
  | succ k ih =>
    intro s h
    by_cases hpos : 0 < s._allEvents._length
    · rw [drainLoop, if_pos hpos]
      rcases hbp : s._allEvents.pop with ⟨tagOpt, ae⟩
      have hae : ae._length = s._allEvents._length - 1 := by
        have := pop_length_all s._allEvents
        rw [hbp] at this
        exact this
      dsimp only
      cases tagOpt with
      | none => exact ih { s with _allEvents := ae } (by show ae._length ≤ k; omega)
      | some tag =>
        rcases tag with ⟨tb⟩
        cases tb with
        | buttonDown =>
          rcases hbk : ({ s with _allEvents := ae })._eventsButtonDown.pop with ⟨evOpt, bb⟩
          rw [hbk]
          cases evOpt with
          | none =>
            exact ih { s with _allEvents := ae, _eventsButtonDown := bb }
              (by show ae._length ≤ k; omega)
          | some ev =>
            exact ih { s with _allEvents := ae, _eventsButtonDown := bb }
              (by show ae._length ≤ k; omega)
        | buttonUp =>
          rcases hbk : ({ s with _allEvents := ae })._eventsButtonUp.pop with ⟨evOpt, bb⟩
          rw [hbk]
          cases evOpt with
          | none =>
            exact ih { s with _allEvents := ae, _eventsButtonUp := bb }
              (by show ae._length ≤ k; omega)
          | some ev =>
            exact ih { s with _allEvents := ae, _eventsButtonUp := bb }
              (by show ae._length ≤ k; omega)
        | doubleTap =>
          rcases hbk : ({ s with _allEvents := ae })._eventsDoubleTap.pop with ⟨evOpt, bb⟩
          rw [hbk]
          cases evOpt with
          | none =>
            exact ih { s with _allEvents := ae, _eventsDoubleTap := bb }
              (by show ae._length ≤ k; omega)
          | some ev =>
            exact ih { s with _allEvents := ae, _eventsDoubleTap := bb }
              (by show ae._length ≤ k; omega)
        | touch =>
          rcases hbk : ({ s with _allEvents := ae })._eventsTouch.pop with ⟨evOpt, bb⟩
          rw [hbk]
          cases evOpt with
          | none =>
            exact ih { s with _allEvents := ae, _eventsTouch := bb }
              (by show ae._length ≤ k; omega)
          | some ev =>
            exact ih { s with _allEvents := ae, _eventsTouch := bb }
              (by show ae._length ≤ k; omega)
        | multiTouch =>
          rcases hbk : ({ s with _allEvents := ae })._eventsMultiTouch.pop with ⟨evOpt, bb⟩
          rw [hbk]
          cases evOpt with
          | none =>
            exact ih { s with _allEvents := ae, _eventsMultiTouch := bb }
              (by show ae._length ≤ k; omega)
          | some ev =>
            exact ih { s with _allEvents := ae, _eventsMultiTouch := bb, _previousPinchSquaredDistance := ev.pinchSquaredDistance, _previousMultiTouchPanPosition := ev.multiTouchPanPosition }
              (by show ae._length ≤ k; omega)
    · rw [drainLoop, if_neg hpos]
      dsimp only
      omega

/-- A run of pointer-move notifications on a state with no tracked contact
points produces no output at all and leaves the contact points, queue state
and button configuration untouched. -/
theorem pointerMoves_noop (engine : EngineFlags) (ps : List PointerInfo) :
    ∀ (s : CameraPointersState),
    (∀ p ∈ ps, p.type = PointerEventTypes.POINTERMOVE) →
    engine.isPointerLock = false →
    s._pointA = none → s._pointB = none →
    (runPointerInputs engine ps s).2 = [] ∧
    (runPointerInputs engine ps s).1.inner = s.inner ∧
    (runPointerInputs engine ps s).1._pointA = none ∧
    (runPointerInputs engine ps s).1._pointB = none ∧
    (runPointerInputs engine ps s).1.buttons = s.buttons := by
  induction ps with
  | nil =>
    intro s _ _ hA hB
    exact ⟨rfl, rfl, hA, hB, rfl⟩
  | cons p ps ih =>
    intro s hmoves hlock hA hB
    have hp := hmoves p (by simp)
    obtain ⟨m1, m2, m3, m4, m5⟩ := pointerMove_noop engine p s hp hlock hA hB
    have hrest := ih (_pointerInput engine p s).1
      (fun p2 hp2 => hmoves p2 (by simp [hp2])) hlock m2 m3
    obtain ⟨r1, r2, r3, r4, r5⟩ := hrest
    have hrun : runPointerInputs engine (p :: ps) s
        = ((runPointerInputs engine ps (_pointerInput engine p s).1).1,
           (_pointerInput engine p s).2
             ++ (runPointerInputs engine ps (_pointerInput engine p s).1).2) := rfl
    rw [hrun]
    refine ⟨?_, ?_, r3, r4, ?_⟩
    · dsimp only
      rw [m5, r1]
      rfl
    · dsimp only
      rw [r2, m1]
    · dsimp only
      rw [r5, m4]

/-- C7: `clear()` resets the length and both cursors to zero, but contrary
to the spec it does not keep the backing storage: the container is replaced
by a fresh empty array, so capacity grown before the clear does not persist
across it. -/
theorem C7_clear_resets_and_deallocates {T : Type} (b : _EventRingBuffer T) :
    (b.clear)._length = 0 ∧ (b.clear)._head = 0 ∧ (b.clear)._tail = 0 ∧
    (b.clear)._container = [] :=
  ⟨rfl, rfl, rfl, rfl⟩

/-- C7 counterexample: after three pushes the backing array holds three
slots; `clear()` drops it to zero slots instead of keeping it, refuting
"cleared, not deallocated". -/
theorem C7_counterexample :
    ¬(((pushAll (empty : _EventRingBuffer Nat) [1, 2, 3]).clear)._container.length
        = (pushAll (empty : _EventRingBuffer Nat) [1, 2, 3])._container.length) := by
  decide

/-- C8: the drain loop always terminates with the order buffer empty, for
every state of every buffer, well formed or not: a pop yielding no payload
(an empty order entry, or a tag resolving to an empty slot buffer) is
skipped and the loop continues, and being a total function it never throws
to its caller. -/
theorem C8_drain_completes (s : InputState) :
    (checkInputs s).1._allEvents._length = 0 := by
  unfold checkInputs
  exact drainLoop_empties s._allEvents._length s (Nat.le_refl _)

/-- C3: pushing 50 or more items into a fresh buffer retains exactly the
most recent 50 (older entries are evicted), pops return the retained items
oldest first, and a push at logical length 50 first evicts the oldest entry
and then appends the new value, keeping the length at 50. -/
theorem C3_overflow_keeps_recent {T : Type} [Inhabited T] (vs : List T)
    (hvs : 50 ≤ vs.length) (b : _EventRingBuffer T) (v : T)
    (hwf : WF b) (hfull : b._length = 50) :
    toList (pushAll empty vs) = vs.drop (vs.length - 50) ∧
    (toList (pushAll empty vs)).length = 50 ∧
    popAll (pushAll empty vs) = vs.drop (vs.length - 50) ∧
    toList (pushSet b v) = (toList b).tail ++ [v] ∧
    (pushSet b v)._length = 50 := by
  obtain ⟨hto, hwf2⟩ := pushAll_spec vs (empty : _EventRingBuffer T) WF_empty
  have h1 : toList (pushAll (empty : _EventRingBuffer T) vs) = vs.drop (vs.length - 50) := by
    rw [hto, toList_empty]
    simp [empty]
  obtain ⟨h4, _, h5⟩ := pushSet_full_spec b v hwf hfull
  refine ⟨h1, ?_, ?_, h4, h5⟩
  · rw [h1, List.length_drop]
    omega
  · rw [popAll_eq_toList _ hwf2, h1]

set_option maxRecDepth 4000 in
/-- C3 witness: 51 pushes into a fresh buffer of naturals, and one more
push into a buffer already holding 50 entries. -/
theorem C3_overflow_keeps_recent_witness :
    50 ≤ (List.range 51).length ∧
    WF (pushAll (empty : _EventRingBuffer Nat) (List.range 50)) ∧
    (pushAll (empty : _EventRingBuffer Nat) (List.range 50))._length = 50 ∧
    (toList (pushAll (empty : _EventRingBuffer Nat) (List.range 51))
        = (List.range 51).drop ((List.range 51).length - 50) ∧
      (toList (pushAll (empty : _EventRingBuffer Nat) (List.range 51))).length = 50 ∧
      popAll (pushAll (empty : _EventRingBuffer Nat) (List.range 51))
        = (List.range 51).drop ((List.range 51).length - 50) ∧
      toList (pushSet (pushAll (empty : _EventRingBuffer Nat) (List.range 50)) 99)
        = (toList (pushAll (empty : _EventRingBuffer Nat) (List.range 50))).tail ++ [99] ∧
      (pushSet (pushAll (empty : _EventRingBuffer Nat) (List.range 50)) 99)._length = 50) :=
  ⟨by decide, by decide, by decide,
    C3_overflow_keeps_recent (List.range 51) (by decide)
      (pushAll empty (List.range 50)) 99 (by decide) (by decide)⟩

/-- C1 (amended): for capture sequences whose coalesced queue fits in the
50-entry capacity, a capture phase dispatches nothing, and one drain fires
the handler and the observer exactly once per non-merged capture — N calls
minus the coalesced merges — in capture order, across kinds. -/
theorem C1_order_and_count (cs : List Capture) (s : InputState)
    (hinv : SysInv s [])
    (hlen : (coalesceList s._previousPinchSquaredDistance
        s._previousMultiTouchPanPosition cs).length ≤ 50) :
    (applyCaptures cs s).2 = [] ∧
    ((checkInputs (applyCaptures cs s).1).2).filterMap handlerOf
      = (coalesceList s._previousPinchSquaredDistance
          s._previousMultiTouchPanPosition cs).map dispatchOfQ ∧
    ((checkInputs (applyCaptures cs s).1).2).filterMap observerOf
      = (coalesceList s._previousPinchSquaredDistance
          s._previousMultiTouchPanPosition cs).map dispatchOfQ ∧
    (((checkInputs (applyCaptures cs s).1).2).filterMap handlerOf).length
        + mergeCount s._previousPinchSquaredDistance s._previousMultiTouchPanPosition cs
      = cs.length := by
  have hsum := coalesce_length_add_mergeCount s._previousPinchSquaredDistance
    s._previousMultiTouchPanPosition cs
  have hq : (cs.foldl (qstep s._previousPinchSquaredDistance
      s._previousMultiTouchPanPosition) []).length ≤ 50 := hlen
  obtain ⟨h1, h2, _, _⟩ := applyCaptures_steps cs s [] hinv hq
  obtain ⟨hd1, _⟩ := drain_spec _ _ h2
  have hco : coalesceList s._previousPinchSquaredDistance
      s._previousMultiTouchPanPosition cs
      = cs.foldl (qstep s._previousPinchSquaredDistance
          s._previousMultiTouchPanPosition) [] := rfl
  refine ⟨h1, ?_, ?_, ?_⟩
  · rw [hd1, handlerOf_outputsOfQ, hco]
  · rw [hd1, observerOf_outputsOfQ, hco]
  · rw [hd1, handlerOf_outputsOfQ, List.length_map, ← hco]
    exact hsum

set_option maxRecDepth 4000 in
/-- C1 witness: a button down followed by sixty touch moves — 61 captures,
more than the ring capacity, coalescing to a two-entry queue — drained
once. -/
theorem C1_order_and_count_witness :
    SysInv initialInputState [] ∧
    (coalesceList initialInputState._previousPinchSquaredDistance
      initialInputState._previousMultiTouchPanPosition
      (Capture.buttonDown default :: List.replicate 60 (Capture.touch none 1 0))).length
      ≤ 50 ∧
    ((applyCaptures (Capture.buttonDown default
        :: List.replicate 60 (Capture.touch none 1 0)) initialInputState).2 = [] ∧
      ((checkInputs (applyCaptures (Capture.buttonDown default
          :: List.replicate 60 (Capture.touch none 1 0)) initialInputState).1).2).filterMap
          handlerOf
        = (coalesceList initialInputState._previousPinchSquaredDistance
            initialInputState._previousMultiTouchPanPosition
            (Capture.buttonDown default
              :: List.replicate 60 (Capture.touch none 1 0))).map dispatchOfQ ∧
      ((checkInputs (applyCaptures (Capture.buttonDown default
          :: List.replicate 60 (Capture.touch none 1 0)) initialInputState).1).2).filterMap
          observerOf
        = (coalesceList initialInputState._previousPinchSquaredDistance
            initialInputState._previousMultiTouchPanPosition
            (Capture.buttonDown default
              :: List.replicate 60 (Capture.touch none 1 0))).map dispatchOfQ ∧
      (((checkInputs (applyCaptures (Capture.buttonDown default
          :: List.replicate 60 (Capture.touch none 1 0)) initialInputState).1).2).filterMap
          handlerOf).length
          + mergeCount initialInputState._previousPinchSquaredDistance
              initialInputState._previousMultiTouchPanPosition
              (Capture.buttonDown default :: List.replicate 60 (Capture.touch none 1 0))
        = (Capture.buttonDown default
            :: List.replicate 60 (Capture.touch none 1 0)).length) :=
  ⟨by decide, by decide,
    C1_order_and_count (Capture.buttonDown default
        :: List.replicate 60 (Capture.touch none 1 0)) initialInputState
      (by decide) (by decide)⟩

set_option maxRecDepth 4000 in
/-- C1 counterexample: 51 button-down captures coalesce nothing, yet one
drain fires the button-down handler only 50 times — the 51st push evicted
the oldest entry — refuting the unconditional count claim. -/
theorem C1_counterexample :
    ¬((((checkInputs (applyCaptures (List.replicate 51 (Capture.buttonDown default))
            initialInputState).1).2).filterMap handlerOf).length
        + mergeCount 0 none (List.replicate 51 (Capture.buttonDown default))
      = (List.replicate 51 (Capture.buttonDown default)).length) := by
  decide

/-- C4 (amended): for capture sequences fitting in capacity, immediate and
deferred dispatch agree on the summed touch deltas, the summed pinch
deltas, and the final pan position; the final pinch value is not preserved
(see the counterexample). -/
theorem C4_immediate_deferred_sums (cs : List Capture) (s : InputState)
    (hinv : SysInv s []) (hlen : cs.length ≤ 50) :
    touchSumX (((checkInputs (applyCaptures cs s).1).2).filterMap handlerOf)
      = touchSumX ((applyCaptures cs immediateInputState).2) ∧
    touchSumY (((checkInputs (applyCaptures cs s).1).2).filterMap handlerOf)
      = touchSumY ((applyCaptures cs immediateInputState).2) ∧
    pinchSum (((checkInputs (applyCaptures cs s).1).2).filterMap handlerOf)
      = pinchSum ((applyCaptures cs immediateInputState).2) ∧
    lastPan (((checkInputs (applyCaptures cs s).1).2).filterMap handlerOf)
      = lastPan ((applyCaptures cs immediateInputState).2) := by
  have hsum := coalesce_length_add_mergeCount s._previousPinchSquaredDistance
    s._previousMultiTouchPanPosition cs
  have hq : (cs.foldl (qstep s._previousPinchSquaredDistance
      s._previousMultiTouchPanPosition) []).length ≤ 50 := by
    unfold coalesceList at hsum
    omega
  obtain ⟨_, h2, _, _⟩ := applyCaptures_steps cs s [] hinv hq
  obtain ⟨hd1, _⟩ := drain_spec _ _ h2
  have himm := applyCaptures_immediate cs immediateInputState rfl
  obtain ⟨c1, c2, c3, c4⟩ := coalesce_sums s._previousPinchSquaredDistance
    s._previousMultiTouchPanPosition cs
  unfold coalesceList at c1 c2 c3 c4
  rw [hd1, handlerOf_outputsOfQ, himm]
  exact ⟨c1, c2, c3, c4⟩

/-- C4 witness: one drag delta followed by one pinch sample. -/
theorem C4_immediate_deferred_sums_witness :
    SysInv initialInputState [] ∧
    ([Capture.touch none 1 2, Capture.multiTouch none none 0 5 none none] :
        List Capture).length ≤ 50 ∧
    (touchSumX (((checkInputs (applyCaptures [Capture.touch none 1 2,
          Capture.multiTouch none none 0 5 none none] initialInputState).1).2).filterMap
          handlerOf)
        = touchSumX ((applyCaptures [Capture.touch none 1 2,
            Capture.multiTouch none none 0 5 none none] immediateInputState).2) ∧
      touchSumY (((checkInputs (applyCaptures [Capture.touch none 1 2,
          Capture.multiTouch none none 0 5 none none] initialInputState).1).2).filterMap
          handlerOf)
        = touchSumY ((applyCaptures [Capture.touch none 1 2,
            Capture.multiTouch none none 0 5 none none] immediateInputState).2) ∧
      pinchSum (((checkInputs (applyCaptures [Capture.touch none 1 2,
          Capture.multiTouch none none 0 5 none none] initialInputState).1).2).filterMap
          handlerOf)
        = pinchSum ((applyCaptures [Capture.touch none 1 2,
            Capture.multiTouch none none 0 5 none none] immediateInputState).2) ∧
      lastPan (((checkInputs (applyCaptures [Capture.touch none 1 2,
          Capture.multiTouch none none 0 5 none none] initialInputState).1).2).filterMap
          handlerOf)
        = lastPan ((applyCaptures [Capture.touch none 1 2,
            Capture.multiTouch none none 0 5 none none] immediateInputState).2)) :=
  ⟨by decide, by decide,
    C4_immediate_deferred_sums [Capture.touch none 1 2,
      Capture.multiTouch none none 0 5 none none] initialInputState (by decide) (by decide)⟩

/-- C4 counterexample: two pinch samples merge in the deferred queue, so
the final dispatched pinch value is the sum 12, while immediate dispatch
ends on the last sample 7 — final pinch values differ between the modes. -/
theorem C4_counterexample :
    ¬(lastPinch (((checkInputs (applyCaptures
            [Capture.multiTouch none none 0 5 none none,
              Capture.multiTouch none none 0 7 none none] initialInputState).1).2).filterMap
          handlerOf)
        = lastPinch ((applyCaptures
            [Capture.multiTouch none none 0 5 none none,
              Capture.multiTouch none none 0 7 none none] immediateInputState).2)) := by
  decide

/-- C6 (amended): as long as the coalesced queue fits in capacity, after
any capture phase the order buffer length equals the sum of the five slot
buffer lengths, and one drain resolves every order entry to a payload,
emitting the full output list and emptying the order buffer. -/
theorem C6_length_partition (cs : List Capture) (s : InputState) (q : List QEntry)
    (hinv : SysInv s q)
    (hlen : (cs.foldl (qstep s._previousPinchSquaredDistance
        s._previousMultiTouchPanPosition) q).length ≤ 50) :
    (applyCaptures cs s).1._allEvents._length
      = (applyCaptures cs s).1._eventsButtonDown._length
        + (applyCaptures cs s).1._eventsButtonUp._length
        + (applyCaptures cs s).1._eventsDoubleTap._length
        + (applyCaptures cs s).1._eventsTouch._length
        + (applyCaptures cs s).1._eventsMultiTouch._length ∧
    (checkInputs (applyCaptures cs s).1).2
      = outputsOfQ (cs.foldl (qstep s._previousPinchSquaredDistance
          s._previousMultiTouchPanPosition) q) ∧
    (checkInputs (applyCaptures cs s).1).1._allEvents._length = 0 := by
  obtain ⟨_, h2, _, _⟩ := applyCaptures_steps cs s q hinv hlen
  obtain ⟨hd1, hd2⟩ := drain_spec _ _ h2
  refine ⟨?_, hd1, by simpa using SysInv_allEvents_length hd2⟩
  obtain ⟨_, _, _, _, _, _, _, lA, lBD, lBU, lDT, lT, lMT⟩ := h2
  have hA : (applyCaptures cs s).1._allEvents._length
      = (cs.foldl (qstep s._previousPinchSquaredDistance
          s._previousMultiTouchPanPosition) q).length := by
    rw [← length_toList, lA, List.length_map]
  have hBD : (applyCaptures cs s).1._eventsButtonDown._length
      = ((cs.foldl (qstep s._previousPinchSquaredDistance
          s._previousMultiTouchPanPosition) q).filterMap qBD).length := by
    rw [← length_toList, lBD]
  have hBU : (applyCaptures cs s).1._eventsButtonUp._length
      = ((cs.foldl (qstep s._previousPinchSquaredDistance
          s._previousMultiTouchPanPosition) q).filterMap qBU).length := by
    rw [← length_toList, lBU]
  have hDT : (applyCaptures cs s).1._eventsDoubleTap._length
      = ((cs.foldl (qstep s._previousPinchSquaredDistance
          s._previousMultiTouchPanPosition) q).filterMap qDT).length := by
    rw [← length_toList, lDT]
  have hT : (applyCaptures cs s).1._eventsTouch._length
      = ((cs.foldl (qstep s._previousPinchSquaredDistance
          s._previousMultiTouchPanPosition) q).filterMap qTouch).length := by
    rw [← length_toList, lT]
  have hMT : (applyCaptures cs s).1._eventsMultiTouch._length
      = ((cs.foldl (qstep s._previousPinchSquaredDistance
          s._previousMultiTouchPanPosition) q).filterMap qMT).length := by
    rw [← length_toList, lMT]
  rw [hA, hBD, hBU, hDT, hT, hMT]
  exact (filterMap_kind_partition _).symm

/-- C6 witness: a button down followed by a touch move, from a fresh
state. -/
theorem C6_length_partition_witness :
    SysInv initialInputState [] ∧
    (([Capture.buttonDown default, Capture.touch none 1 2] :
        List Capture).foldl (qstep initialInputState._previousPinchSquaredDistance
          initialInputState._previousMultiTouchPanPosition) []).length ≤ 50 ∧
    ((applyCaptures [Capture.buttonDown default, Capture.touch none 1 2]
        initialInputState).1._allEvents._length
      = (applyCaptures [Capture.buttonDown default, Capture.touch none 1 2]
          initialInputState).1._eventsButtonDown._length
        + (applyCaptures [Capture.buttonDown default, Capture.touch none 1 2]
            initialInputState).1._eventsButtonUp._length
        + (applyCaptures [Capture.buttonDown default, Capture.touch none 1 2]
            initialInputState).1._eventsDoubleTap._length
        + (applyCaptures [Capture.buttonDown default, Capture.touch none 1 2]
            initialInputState).1._eventsTouch._length
        + (applyCaptures [Capture.buttonDown default, Capture.touch none 1 2]
            initialInputState).1._eventsMultiTouch._length ∧
    (checkInputs (applyCaptures [Capture.buttonDown default, Capture.touch none 1 2]
        initialInputState).1).2
      = outputsOfQ (([Capture.buttonDown default, Capture.touch none 1 2] :
          List Capture).foldl (qstep initialInputState._previousPinchSquaredDistance
            initialInputState._previousMultiTouchPanPosition) []) ∧
    (checkInputs (applyCaptures [Capture.buttonDown default, Capture.touch none 1 2]
        initialInputState).1).1._allEvents._length = 0) :=
  ⟨by decide, by decide,
    C6_length_partition [Capture.buttonDown default, Capture.touch none 1 2]
      initialInputState [] (by decide) (by decide)⟩

set_option maxRecDepth 4000 in
/-- C6 counterexample: 26 button downs alternating with 25 button ups (51
captures, none coalescible) leave the shared order buffer at its 50 cap
while the slot buffers still hold all 51 payloads, refuting the
unconditional length invariant. -/
theorem C6_counterexample :
    ¬((applyCaptures ((List.range 51).map fun i =>
          if i % 2 = 0 then Capture.buttonDown default else Capture.buttonUp default)
        initialInputState).1._allEvents._length
      = (applyCaptures ((List.range 51).map fun i =>
            if i % 2 = 0 then Capture.buttonDown default else Capture.buttonUp default)
          initialInputState).1._eventsButtonDown._length
        + (applyCaptures ((List.range 51).map fun i =>
            if i % 2 = 0 then Capture.buttonDown default else Capture.buttonUp default)
          initialInputState).1._eventsButtonUp._length
        + (applyCaptures ((List.range 51).map fun i =>
            if i % 2 = 0 then Capture.buttonDown default else Capture.buttonUp default)
          initialInputState).1._eventsDoubleTap._length
        + (applyCaptures ((List.range 51).map fun i =>
            if i % 2 = 0 then Capture.buttonDown default else Capture.buttonUp default)
          initialInputState).1._eventsTouch._length
        + (applyCaptures ((List.range 51).map fun i =>
            if i % 2 = 0 then Capture.buttonDown default else Capture.buttonUp default)
          initialInputState).1._eventsMultiTouch._length) := by
  decide

/-- C2: K consecutive touch captures between two non-touch captures
coalesce into exactly one `onTouch` call whose offsets are the sums of the
K individual deltas and whose contact point is the one supplied by the
latest capture of the run. -/
theorem C2_touch_coalescing (c1 c2 : Capture) (d : Option PointerTouch × Int × Int)
    (ds : List (Option PointerTouch × Int × Int)) (s : InputState)
    (h1 : captureKind c1 ≠ EventBufferTag.touch)
    (h2 : captureKind c2 ≠ EventBufferTag.touch)
    (hinv : SysInv s []) :
    ((checkInputs (applyCaptures
          (c1 :: (d :: ds).map (fun x => Capture.touch x.1 x.2.1 x.2.2) ++ [c2])
          s).1).2).filterMap touchHandlerOf
      = [((ds.map fun x => x.1).getLastD d.1,
          d.2.1 + (ds.map fun x => x.2.1).sum,
          d.2.2 + (ds.map fun x => x.2.2).sum)] := by
  have hm1 : qMerges [] c1 = false := qMerges_nil c1
  have s1 := qstep_no_merge s._previousPinchSquaredDistance
    s._previousMultiTouchPanPosition [] c1 hm1
  have hm2 : qMerges [freshEntry s._previousPinchSquaredDistance
      s._previousMultiTouchPanPosition c1] (Capture.touch d.1 d.2.1 d.2.2) = false :=
    qMerges_concat_ne [] _ _ (by rw [qTag_freshEntry]; exact h1)
  have s2 : qstep s._previousPinchSquaredDistance s._previousMultiTouchPanPosition
      [freshEntry s._previousPinchSquaredDistance s._previousMultiTouchPanPosition c1]
      (Capture.touch d.1 d.2.1 d.2.2)
      = [freshEntry s._previousPinchSquaredDistance s._previousMultiTouchPanPosition c1]
        ++ [QEntry.touch ⟨d.1, d.2.1, d.2.2⟩] :=
    qstep_no_merge s._previousPinchSquaredDistance
      s._previousMultiTouchPanPosition _ (Capture.touch d.1 d.2.1 d.2.2) hm2
  have hm3 : qMerges ([freshEntry s._previousPinchSquaredDistance
        s._previousMultiTouchPanPosition c1]
      ++ [QEntry.touch (touchAccum ⟨d.1, d.2.1, d.2.2⟩ ds)]) c2 = false :=
    qMerges_concat_ne _ _ _ (fun hh => h2 hh.symm)
  have s3 := qstep_no_merge s._previousPinchSquaredDistance
    s._previousMultiTouchPanPosition _ c2 hm3
  have hfold : (c1 :: (d :: ds).map (fun x => Capture.touch x.1 x.2.1 x.2.2)
        ++ [c2]).foldl (qstep s._previousPinchSquaredDistance
          s._previousMultiTouchPanPosition) []
      = [freshEntry s._previousPinchSquaredDistance
            s._previousMultiTouchPanPosition c1,
          QEntry.touch (touchAccum ⟨d.1, d.2.1, d.2.2⟩ ds),
          freshEntry s._previousPinchSquaredDistance
            s._previousMultiTouchPanPosition c2] := by
    simp only [List.foldl_append, List.map_cons, List.foldl_cons, List.foldl_nil]
    rw [s1]
    simp only [List.nil_append]
    rw [s2]
    rw [foldl_touch_merge s._previousPinchSquaredDistance
      s._previousMultiTouchPanPosition ds [freshEntry s._previousPinchSquaredDistance
        s._previousMultiTouchPanPosition c1] ⟨d.1, d.2.1, d.2.2⟩]
    rw [s3]
    rfl
  have hq : ((c1 :: (d :: ds).map (fun x => Capture.touch x.1 x.2.1 x.2.2)
        ++ [c2]).foldl (qstep s._previousPinchSquaredDistance
          s._previousMultiTouchPanPosition) []).length ≤ 50 := by
    rw [hfold]
    simp
  obtain ⟨_, h2', _, _⟩ := applyCaptures_steps _ s [] hinv hq
  obtain ⟨hd1, _⟩ := drain_spec _ _ h2'
  rw [hd1, hfold]
  have hh1 : touchHandlerOf (OutEvent.handler (dispatchOfQ
      (freshEntry s._previousPinchSquaredDistance
        s._previousMultiTouchPanPosition c1))) = none :=
    touchHandlerOf_nontouch _ (by rw [qTag_freshEntry]; exact h1)
  have hh2 : touchHandlerOf (OutEvent.handler (dispatchOfQ
      (freshEntry s._previousPinchSquaredDistance
        s._previousMultiTouchPanPosition c2))) = none :=
    touchHandlerOf_nontouch _ (by rw [qTag_freshEntry]; exact h2)
  simp only [outputsOfQ, List.cons_bind, List.nil_bind, List.append_nil,
    List.filterMap_append, List.filterMap_cons, List.filterMap_nil, hh1, hh2,
    touchHandlerOf_observer]
  simp only [dispatchOfQ, touchHandlerOf]
  rw [touchAccum_point ds ⟨d.1, d.2.1, d.2.2⟩, touchAccum_offsetX ds ⟨d.1, d.2.1, d.2.2⟩,
    touchAccum_offsetY ds ⟨d.1, d.2.1, d.2.2⟩]
  rfl

/-- C2 witness: a run of two touch captures between a button down and a
button up. -/
theorem C2_touch_coalescing_witness :
    captureKind (Capture.buttonDown default) ≠ EventBufferTag.touch ∧
    captureKind (Capture.buttonUp default) ≠ EventBufferTag.touch ∧
    SysInv initialInputState [] ∧
    ((checkInputs (applyCaptures
          (Capture.buttonDown default
            :: ([((none : Option PointerTouch), (1 : Int), (2 : Int)),
                 (some ⟨5, 6, 7, "touch"⟩, 3, 4)].map
                  fun x => Capture.touch x.1 x.2.1 x.2.2)
            ++ [Capture.buttonUp default])
          initialInputState).1).2).filterMap touchHandlerOf
      = [(([(some (⟨5, 6, 7, "touch"⟩ : PointerTouch), (3 : Int), (4 : Int))].map
            fun x => x.1).getLastD none,
          (1 : Int) + ([(some (⟨5, 6, 7, "touch"⟩ : PointerTouch), (3 : Int), (4 : Int))].map
            fun x => x.2.1).sum,
          (2 : Int) + ([(some (⟨5, 6, 7, "touch"⟩ : PointerTouch), (3 : Int), (4 : Int))].map
            fun x => x.2.2).sum)] :=
  ⟨by decide, by decide, by decide,
    C2_touch_coalescing (Capture.buttonDown default) (Capture.buttonUp default)
      ((none : Option PointerTouch), (1 : Int), (2 : Int))
      [(some ⟨5, 6, 7, "touch"⟩, 3, 4)] initialInputState
      (by decide) (by decide) (by decide)⟩

/-- C5: a multi-touch capture arriving while the newest undrained entry is
multi-touch merges into that slot: the pinch squared distance is summed,
the points and the pan position are overwritten with the latest sample,
and the two previous-state fields keep the values captured at the first
sample of the run; nothing is dispatched at capture time. -/
theorem C5_multitouch_merge (s : InputState) (ys : List QEntry)
    (et : ICameraInputMultiTouchEvent) (a b : Option PointerTouch)
    (pp2 pd : Int) (pm2 pan : Option PointerTouch)
    (hinv : SysInv s (ys ++ [QEntry.multiTouch et]))
    (hlen : ys.length + 1 ≤ 50) :
    (applyCapture (Capture.multiTouch a b pp2 pd pm2 pan) s).2 = [] ∧
    SysInv (applyCapture (Capture.multiTouch a b pp2 pd pm2 pan) s).1
      (ys ++ [QEntry.multiTouch
        ⟨a, b, et.previousPinchSquaredDistance, et.pinchSquaredDistance + pd,
          et.previousMultiTouchPanPosition, pan⟩]) := by
  have hq_eq : qstep s._previousPinchSquaredDistance s._previousMultiTouchPanPosition
      (ys ++ [QEntry.multiTouch et]) (Capture.multiTouch a b pp2 pd pm2 pan)
      = ys ++ [QEntry.multiTouch
          ⟨a, b, et.previousPinchSquaredDistance, et.pinchSquaredDistance + pd,
            et.previousMultiTouchPanPosition, pan⟩] := by
    unfold qstep
    rw [List.getLast?_concat]
    dsimp only
    rw [List.dropLast_concat]
  have hcap : (qstep s._previousPinchSquaredDistance s._previousMultiTouchPanPosition
      (ys ++ [QEntry.multiTouch et])
      (Capture.multiTouch a b pp2 pd pm2 pan)).length ≤ 50 := by
    rw [hq_eq]
    simp only [List.length_append, List.length_cons, List.length_nil]
    omega
  obtain ⟨h1, h2, _, _⟩ := applyCapture_step
    (Capture.multiTouch a b pp2 pd pm2 pan) s (ys ++ [QEntry.multiTouch et]) hinv hcap
  rw [hq_eq] at h2
  exact ⟨h1, h2⟩

/-- C5 witness: a second pinch sample merging into the single undrained
multi-touch slot of a fresh capture phase. -/
theorem C5_multitouch_merge_witness :
    SysInv (applyCapture (Capture.multiTouch (some ⟨0, 0, 1, "touch"⟩)
        (some ⟨3, 4, 2, "touch"⟩) 0 25 none (some ⟨1, 2, 1, "touch"⟩))
        initialInputState).1
      ([] ++ [QEntry.multiTouch ⟨some ⟨0, 0, 1, "touch"⟩, some ⟨3, 4, 2, "touch"⟩,
        0, 25, none, some ⟨1, 2, 1, "touch"⟩⟩]) ∧
    ([] : List QEntry).length + 1 ≤ 50 ∧
    ((applyCapture (Capture.multiTouch (some ⟨6, 8, 1, "touch"⟩) (some ⟨9, 12, 2, "touch"⟩)
        25 11 (some ⟨1, 2, 1, "touch"⟩) (some ⟨7, 10, 2, "touch"⟩))
        (applyCapture (Capture.multiTouch (some ⟨0, 0, 1, "touch"⟩)
          (some ⟨3, 4, 2, "touch"⟩) 0 25 none (some ⟨1, 2, 1, "touch"⟩))
          initialInputState).1).2 = [] ∧
      SysInv (applyCapture (Capture.multiTouch (some ⟨6, 8, 1, "touch"⟩)
          (some ⟨9, 12, 2, "touch"⟩) 25 11 (some ⟨1, 2, 1, "touch"⟩)
            (some ⟨7, 10, 2, "touch"⟩))
          (applyCapture (Capture.multiTouch (some ⟨0, 0, 1, "touch"⟩)
            (some ⟨3, 4, 2, "touch"⟩) 0 25 none (some ⟨1, 2, 1, "touch"⟩))
            initialInputState).1).1
        ([] ++ [QEntry.multiTouch ⟨some ⟨6, 8, 1, "touch"⟩, some ⟨9, 12, 2, "touch"⟩,
          (⟨some ⟨0, 0, 1, "touch"⟩, some ⟨3, 4, 2, "touch"⟩, 0, 25, none,
            some ⟨1, 2, 1, "touch"⟩⟩ : ICameraInputMultiTouchEvent).previousPinchSquaredDistance,
          (⟨some ⟨0, 0, 1, "touch"⟩, some ⟨3, 4, 2, "touch"⟩, 0, 25, none,
            some ⟨1, 2, 1, "touch"⟩⟩ : ICameraInputMultiTouchEvent).pinchSquaredDistance + 11,
          (⟨some ⟨0, 0, 1, "touch"⟩, some ⟨3, 4, 2, "touch"⟩, 0, 25, none,
            some ⟨1, 2, 1, "touch"⟩⟩ : ICameraInputMultiTouchEvent).previousMultiTouchPanPosition,
          some ⟨7, 10, 2, "touch"⟩⟩])) :=
  ⟨by decide, by decide,
    C5_multitouch_merge _ []
      ⟨some ⟨0, 0, 1, "touch"⟩, some ⟨3, 4, 2, "touch"⟩, 0, 25, none, some ⟨1, 2, 1, "touch"⟩⟩
      (some ⟨6, 8, 1, "touch"⟩) (some ⟨9, 12, 2, "touch"⟩) 25 11
      (some ⟨1, 2, 1, "touch"⟩) (some ⟨7, 10, 2, "touch"⟩) (by decide) (by decide)⟩

/-- C9: losing window focus resets both tracked contact points and the
accumulated previous-pinch state and emits the lost-focus notification
immediately without touching the queue; afterwards, any run of pointer
moves dispatches nothing, enqueues nothing (the queue state is exactly the
pre-focus-loss one, so a later drain emits no touch or multi-touch call
beyond what was already queued before the focus loss), until a button down
restores a tracked contact point. -/
theorem C9_focus_loss (engine : EngineFlags) (s : CameraPointersState)
    (ps : List PointerInfo) (evt : PEvent)
    (hVR : engine.isInVRExclusivePointerMode = false)
    (hlock : engine.isPointerLock = false)
    (hmoves : ∀ p ∈ ps, p.type = PointerEventTypes.POINTERMOVE)
    (hbtn : evt.button ∈ s.buttons) :
    (_onLostFocus s).1._pointA = none ∧
    (_onLostFocus s).1._pointB = none ∧
    (_onLostFocus s).1.previousPinchSquaredDistance = 0 ∧
    (_onLostFocus s).1.previousMultiTouchPanPosition = none ∧
    (_onLostFocus s).2 = [PointerOut.lostFocus] ∧
    (_onLostFocus s).1.inner = s.inner ∧
    (runPointerInputs engine ps (_onLostFocus s).1).2 = [] ∧
    (runPointerInputs engine ps (_onLostFocus s).1).1.inner = s.inner ∧
    (checkInputs (runPointerInputs engine ps (_onLostFocus s).1).1.inner).2
      = (checkInputs s.inner).2 ∧
    (_pointerInput engine ⟨PointerEventTypes.POINTERDOWN, evt⟩
        (runPointerInputs engine ps (_onLostFocus s).1).1).1._pointA
      = some ⟨evt.clientX, evt.clientY, evt.pointerId, evt.pointerType⟩ := by
  obtain ⟨m1, m2, m3, m4, m5⟩ :=
    pointerMoves_noop engine ps (_onLostFocus s).1 hmoves hlock rfl rfl
  have h7 : (runPointerInputs engine ps (_onLostFocus s).1).1.inner = s.inner := m2
  refine ⟨rfl, rfl, rfl, rfl, rfl, rfl, m1, h7, by rw [h7], ?_⟩
  exact pointerDown_sets_pointA engine evt _ hVR hlock (by rw [m5]; exact hbtn) m3

/-- C9 witness: focus loss in the middle of a pinch, one further move, then
a button down. -/
theorem C9_focus_loss_witness :
    (⟨false, false, false⟩ : EngineFlags).isInVRExclusivePointerMode = false ∧
    (⟨false, false, false⟩ : EngineFlags).isPointerLock = false ∧
    (∀ p ∈ ([⟨PointerEventTypes.POINTERMOVE, default⟩] : List PointerInfo),
      p.type = PointerEventTypes.POINTERMOVE) ∧
    (default : PEvent).button
      ∈ ({ initialCameraPointersState with _pointA := some ⟨1, 2, 3, "touch"⟩, previousPinchSquaredDistance := 9 } : CameraPointersState).buttons ∧
    ((_onLostFocus { initialCameraPointersState with _pointA := some ⟨1, 2, 3, "touch"⟩, previousPinchSquaredDistance := 9 }).1._pointA = none ∧
      (_onLostFocus { initialCameraPointersState with _pointA := some ⟨1, 2, 3, "touch"⟩, previousPinchSquaredDistance := 9 }).1._pointB = none ∧
      (_onLostFocus { initialCameraPointersState with _pointA := some ⟨1, 2, 3, "touch"⟩, previousPinchSquaredDistance := 9 }).1.previousPinchSquaredDistance = 0 ∧
      (_onLostFocus { initialCameraPointersState with _pointA := some ⟨1, 2, 3, "touch"⟩, previousPinchSquaredDistance := 9 }).1.previousMultiTouchPanPosition = none ∧
      (_onLostFocus { initialCameraPointersState with _pointA := some ⟨1, 2, 3, "touch"⟩, previousPinchSquaredDistance := 9 }).2 = [PointerOut.lostFocus] ∧
      (_onLostFocus { initialCameraPointersState with _pointA := some ⟨1, 2, 3, "touch"⟩, previousPinchSquaredDistance := 9 }).1.inner
        = ({ initialCameraPointersState with _pointA := some ⟨1, 2, 3, "touch"⟩, previousPinchSquaredDistance := 9 } : CameraPointersState).inner ∧
      (runPointerInputs ⟨false, false, false⟩ [⟨PointerEventTypes.POINTERMOVE, default⟩]
          (_onLostFocus { initialCameraPointersState with _pointA := some ⟨1, 2, 3, "touch"⟩, previousPinchSquaredDistance := 9 }).1).2 = [] ∧
      (runPointerInputs ⟨false, false, false⟩ [⟨PointerEventTypes.POINTERMOVE, default⟩]
          (_onLostFocus { initialCameraPointersState with _pointA := some ⟨1, 2, 3, "touch"⟩, previousPinchSquaredDistance := 9 }).1).1.inner = ({ initialCameraPointersState with _pointA := some ⟨1, 2, 3, "touch"⟩, previousPinchSquaredDistance := 9 } : CameraPointersState).inner ∧
      (checkInputs (runPointerInputs ⟨false, false, false⟩ [⟨PointerEventTypes.POINTERMOVE, default⟩]
          (_onLostFocus { initialCameraPointersState with _pointA := some ⟨1, 2, 3, "touch"⟩, previousPinchSquaredDistance := 9 }).1).1.inner).2 = (checkInputs ({ initialCameraPointersState with _pointA := some ⟨1, 2, 3, "touch"⟩, previousPinchSquaredDistance := 9 } : CameraPointersState).inner).2 ∧
      (_pointerInput ⟨false, false, false⟩ ⟨PointerEventTypes.POINTERDOWN, default⟩
          (runPointerInputs ⟨false, false, false⟩ [⟨PointerEventTypes.POINTERMOVE, default⟩]
            (_onLostFocus { initialCameraPointersState with _pointA := some ⟨1, 2, 3, "touch"⟩, previousPinchSquaredDistance := 9 }).1).1).1._pointA
        = some ⟨(default : PEvent).clientX, (default : PEvent).clientY,
            (default : PEvent).pointerId, (default : PEvent).pointerType⟩) :=
  ⟨rfl, rfl, by decide, by decide,
    C9_focus_loss ⟨false, false, false⟩
      { initialCameraPointersState with _pointA := some ⟨1, 2, 3, "touch"⟩, previousPinchSquaredDistance := 9 }
      [⟨PointerEventTypes.POINTERMOVE, default⟩] default
      rfl rfl (by decide) (by decide)⟩

set_option maxRecDepth 2000 in
/-- C10 counterexample: a two-contact pinch (down 1, down 2, move 2) leaves
an undrained multi-touch entry, so the extra multi-touch capture issued by
the button up merges into it instead of enqueueing its own event: the
single drained `onMultiTouch` call carries the merged pinch value 400, and
no call carries the pinch value 0 the claim requires. -/
theorem C10_counterexample :
    pinchList (((checkInputs (runPointerInputs ⟨false, false, false⟩
          [⟨PointerEventTypes.POINTERDOWN, { (default : PEvent) with pointerType := "touch", pointerId := 1 }⟩,
            ⟨PointerEventTypes.POINTERDOWN, { (default : PEvent) with pointerType := "touch", pointerId := 2, clientX := 10 }⟩,
            ⟨PointerEventTypes.POINTERMOVE, { (default : PEvent) with pointerType := "touch", pointerId := 2, clientY := 20 }⟩,
            ⟨PointerEventTypes.POINTERUP, { (default : PEvent) with pointerType := "touch", pointerId := 2, clientY := 20 }⟩]
          initialCameraPointersState).1.inner).2).filterMap handlerOf)
      = [(400 : Int)] ∧
    (0 : Int) ∉ pinchList (((checkInputs (runPointerInputs ⟨false, false, false⟩
          [⟨PointerEventTypes.POINTERDOWN, { (default : PEvent) with pointerType := "touch", pointerId := 1 }⟩,
            ⟨PointerEventTypes.POINTERDOWN, { (default : PEvent) with pointerType := "touch", pointerId := 2, clientX := 10 }⟩,
            ⟨PointerEventTypes.POINTERMOVE, { (default : PEvent) with pointerType := "touch", pointerId := 2, clientY := 20 }⟩,
            ⟨PointerEventTypes.POINTERUP, { (default : PEvent) with pointerType := "touch", pointerId := 2, clientY := 20 }⟩]
          initialCameraPointersState).1.inner).2).filterMap handlerOf) := by
  decide

/-- C10 (amended): a button up dispatches nothing at capture time and
always leaves the previous-pinch locals reset.  With no pinch state it
enqueues only the button-up event.  With pinch state populated it issues
one extra multi-touch capture with pinch argument 0 and pan argument null
ahead of the button-up event; when the newest undrained entry is not
multi-touch this appends a fresh multi-touch entry (pinch 0, pan null),
but when it is multi-touch the capture merges into that entry — its pinch
value stays and its pan position becomes null — so no separate event with
pinch 0 is enqueued. -/
theorem C10_buttonup_pinch_end (engine : EngineFlags) (evt : PEvent)
    (s : CameraPointersState) (q : List QEntry)
    (hVR : engine.isInVRExclusivePointerMode = false)
    (hlock : engine.isPointerLock = false)
    (hbtn : evt.button ∈ s.buttons)
    (hinv : SysInv s.inner q)
    (hlen : q.length + 2 ≤ 50) :
    (_pointerInput engine ⟨PointerEventTypes.POINTERUP, evt⟩ s).2 = [] ∧
    (_pointerInput engine ⟨PointerEventTypes.POINTERUP, evt⟩ s).1.previousPinchSquaredDistance = 0 ∧
    (_pointerInput engine ⟨PointerEventTypes.POINTERUP, evt⟩ s).1.previousMultiTouchPanPosition = none ∧
    (s.previousPinchSquaredDistance = 0 ∧ s.previousMultiTouchPanPosition = none →
      SysInv (_pointerInput engine ⟨PointerEventTypes.POINTERUP, evt⟩ s).1.inner
        (q ++ [QEntry.buttonUp ⟨evt⟩])) ∧
    (¬(s.previousPinchSquaredDistance = 0 ∧ s.previousMultiTouchPanPosition = none) →
      (∀ e, q.getLast? ≠ some (QEntry.multiTouch e)) →
      ∃ a b, SysInv (_pointerInput engine ⟨PointerEventTypes.POINTERUP, evt⟩ s).1.inner
        (q ++ [QEntry.multiTouch ⟨a, b, s.inner._previousPinchSquaredDistance, 0,
            s.inner._previousMultiTouchPanPosition, none⟩,
          QEntry.buttonUp ⟨evt⟩])) ∧
    (¬(s.previousPinchSquaredDistance = 0 ∧ s.previousMultiTouchPanPosition = none) →
      ∀ ys e, q = ys ++ [QEntry.multiTouch e] →
      ∃ a b, SysInv (_pointerInput engine ⟨PointerEventTypes.POINTERUP, evt⟩ s).1.inner
        (ys ++ [QEntry.multiTouch ⟨a, b, e.previousPinchSquaredDistance,
            e.pinchSquaredDistance, e.previousMultiTouchPanPosition, none⟩,
          QEntry.buttonUp ⟨evt⟩])) := by
  unfold _pointerInput
  rw [if_neg (by simp [hVR])]
  rw [if_neg (by simp [hbtn])]
  dsimp only
  rw [if_neg (by simp [hlock])]
  rw [if_neg (by simp), if_neg (by simp), if_pos rfl]
  set s2 := _pointerUpPoints engine evt { s with _altKey := evt.altKey, _ctrlKey := evt.ctrlKey, _metaKey := evt.metaKey, _shiftKey := evt.shiftKey, _buttonsPressed := evt.buttons } with hs2def
  have hf := pointerUpPoints_fields engine evt { s with _altKey := evt.altKey, _ctrlKey := evt.ctrlKey, _metaKey := evt.metaKey, _shiftKey := evt.shiftKey, _buttonsPressed := evt.buttons }
  rw [← hs2def] at hf
  have hinner : s2.inner = s.inner := hf.1
  have hppv : s2.previousPinchSquaredDistance = s.previousPinchSquaredDistance := hf.2.1
  have hpmv : s2.previousMultiTouchPanPosition = s.previousMultiTouchPanPosition := hf.2.2.1
  by_cases hcond : s2.previousPinchSquaredDistance ≠ 0 ∨ s2.previousMultiTouchPanPosition ≠ none
  · rw [if_pos hcond]
    dsimp only
    rw [hinner]
    have hqMT : (qstep s.inner._previousPinchSquaredDistance
        s.inner._previousMultiTouchPanPosition q
        (Capture.multiTouch s2._pointA s2._pointB s2.previousPinchSquaredDistance 0
          s2.previousMultiTouchPanPosition none)).length ≤ 50 := by
      have h := qstep_length_eq s.inner._previousPinchSquaredDistance
        s.inner._previousMultiTouchPanPosition q
        (Capture.multiTouch s2._pointA s2._pointB s2.previousPinchSquaredDistance 0
          s2.previousMultiTouchPanPosition none)
      by_cases hmm : qMerges q (Capture.multiTouch s2._pointA s2._pointB
          s2.previousPinchSquaredDistance 0 s2.previousMultiTouchPanPosition none) = true <;>
        simp [hmm] at h <;> omega
    have hMT := applyCapture_step
      (Capture.multiTouch s2._pointA s2._pointB s2.previousPinchSquaredDistance 0
        s2.previousMultiTouchPanPosition none) s.inner q hinv hqMT
    simp only [applyCapture] at hMT
    obtain ⟨hm1, hm2, hm3, hm4⟩ := hMT
    have hq'len : (qstep s.inner._previousPinchSquaredDistance
        s.inner._previousMultiTouchPanPosition q
        (Capture.multiTouch s2._pointA s2._pointB s2.previousPinchSquaredDistance 0
          s2.previousMultiTouchPanPosition none)).length ≤ q.length + 1 := by
      have h := qstep_length_eq s.inner._previousPinchSquaredDistance
        s.inner._previousMultiTouchPanPosition q
        (Capture.multiTouch s2._pointA s2._pointB s2.previousPinchSquaredDistance 0
          s2.previousMultiTouchPanPosition none)
      by_cases hmm : qMerges q (Capture.multiTouch s2._pointA s2._pointB
          s2.previousPinchSquaredDistance 0 s2.previousMultiTouchPanPosition none) = true <;>
        simp [hmm] at h <;> omega
    have hstep_bu : ∀ (a : Int) (b : Option PointerTouch) (q2 : List QEntry),
        qstep a b q2 (Capture.buttonUp evt) = q2 ++ [QEntry.buttonUp ⟨evt⟩] :=
      fun a b q2 => rfl
    have hqBU : (qstep (_addEventsMultiTouch s2._pointA s2._pointB
          s2.previousPinchSquaredDistance 0 s2.previousMultiTouchPanPosition none
          s.inner).1._previousPinchSquaredDistance
        (_addEventsMultiTouch s2._pointA s2._pointB s2.previousPinchSquaredDistance 0
          s2.previousMultiTouchPanPosition none s.inner).1._previousMultiTouchPanPosition
        (qstep s.inner._previousPinchSquaredDistance s.inner._previousMultiTouchPanPosition q
          (Capture.multiTouch s2._pointA s2._pointB s2.previousPinchSquaredDistance 0
            s2.previousMultiTouchPanPosition none))
        (Capture.buttonUp evt)).length ≤ 50 := by
      rw [hstep_bu]
      simp only [List.length_append, List.length_cons, List.length_nil]
      omega
    have hBU := applyCapture_step (Capture.buttonUp evt)
      (_addEventsMultiTouch s2._pointA s2._pointB s2.previousPinchSquaredDistance 0
        s2.previousMultiTouchPanPosition none s.inner).1
      (qstep s.inner._previousPinchSquaredDistance s.inner._previousMultiTouchPanPosition q
        (Capture.multiTouch s2._pointA s2._pointB s2.previousPinchSquaredDistance 0
          s2.previousMultiTouchPanPosition none))
      hm2 hqBU
    simp only [applyCapture] at hBU
    obtain ⟨hb1, hb2, _, _⟩ := hBU
    rw [hstep_bu] at hb2
    refine ⟨?_, rfl, rfl, ?_, ?_, ?_⟩
    · rw [hm1, hb1]
      rfl
    · intro h
      rcases hcond with hc | hc
      · exact absurd (hppv.trans h.1) hc
      · exact absurd (hpmv.trans h.2) hc
    · intro hne hnmt
      refine ⟨s2._pointA, s2._pointB, ?_⟩
      have hq'fresh : qstep s.inner._previousPinchSquaredDistance
          s.inner._previousMultiTouchPanPosition q
          (Capture.multiTouch s2._pointA s2._pointB s2.previousPinchSquaredDistance 0
            s2.previousMultiTouchPanPosition none)
          = q ++ [QEntry.multiTouch ⟨s2._pointA, s2._pointB,
              s.inner._previousPinchSquaredDistance, 0,
              s.inner._previousMultiTouchPanPosition, none⟩] := by
        unfold qstep
        rcases hlast : q.getLast? with _ | e0
        · rfl
        · cases e0 with
          | multiTouch e1 => exact absurd hlast (hnmt e1)
          | buttonDown e1 => rfl
          | buttonUp e1 => rfl
          | doubleTap e1 => rfl
          | touch e1 => rfl
      rw [hq'fresh, List.append_assoc] at hb2
      exact hb2
    · intro hne ys e hqe
      refine ⟨s2._pointA, s2._pointB, ?_⟩
      subst hqe
      have hq'merge : qstep s.inner._previousPinchSquaredDistance
          s.inner._previousMultiTouchPanPosition (ys ++ [QEntry.multiTouch e])
          (Capture.multiTouch s2._pointA s2._pointB s2.previousPinchSquaredDistance 0
            s2.previousMultiTouchPanPosition none)
          = ys ++ [QEntry.multiTouch ⟨s2._pointA, s2._pointB,
              e.previousPinchSquaredDistance, e.pinchSquaredDistance,
              e.previousMultiTouchPanPosition, none⟩] := by
        unfold qstep
        rw [List.getLast?_concat]
        dsimp only
        rw [List.dropLast_concat]
        simp
      rw [hq'merge, List.append_assoc] at hb2
      exact hb2
  · rw [if_neg hcond]
    dsimp only
    rw [hinner]
    push_neg at hcond
    obtain ⟨hc1, hc2⟩ := hcond
    have hstep_bu : ∀ (a : Int) (b : Option PointerTouch) (q2 : List QEntry),
        qstep a b q2 (Capture.buttonUp evt) = q2 ++ [QEntry.buttonUp ⟨evt⟩] :=
      fun a b q2 => rfl
    have hqBU : (qstep s.inner._previousPinchSquaredDistance
        s.inner._previousMultiTouchPanPosition q (Capture.buttonUp evt)).length ≤ 50 := by
      rw [hstep_bu]
      simp only [List.length_append, List.length_cons, List.length_nil]
      omega
    have hBU := applyCapture_step (Capture.buttonUp evt) s.inner q hinv hqBU
    simp only [applyCapture] at hBU
    obtain ⟨hb1, hb2, _, _⟩ := hBU
    rw [hstep_bu] at hb2
    refine ⟨?_, hc1, hc2, fun _ => hb2, ?_, ?_⟩
    · rw [hb1]
      rfl
    · intro hne _
      exact absurd ⟨hppv.symm.trans hc1, hpmv.symm.trans hc2⟩ hne
    · intro hne _ _ _
      exact absurd ⟨hppv.symm.trans hc1, hpmv.symm.trans hc2⟩ hne

/-- C10 witness: a button up with pinch state 9 populated and an empty
queue, which enqueues the extra multi-touch event ahead of the button-up
event and resets the locals. -/
theorem C10_buttonup_pinch_end_witness :
    (⟨false, false, false⟩ : EngineFlags).isInVRExclusivePointerMode = false ∧
    (⟨false, false, false⟩ : EngineFlags).isPointerLock = false ∧
    (default : PEvent).button ∈ ({ initialCameraPointersState with previousPinchSquaredDistance := 9 } : CameraPointersState).buttons ∧
    SysInv ({ initialCameraPointersState with previousPinchSquaredDistance := 9 } : CameraPointersState).inner [] ∧
    ([] : List QEntry).length + 2 ≤ 50 ∧
    ((_pointerInput ⟨false, false, false⟩ ⟨PointerEventTypes.POINTERUP, default⟩ { initialCameraPointersState with previousPinchSquaredDistance := 9 }).2 = [] ∧
      (_pointerInput ⟨false, false, false⟩ ⟨PointerEventTypes.POINTERUP, default⟩ { initialCameraPointersState with previousPinchSquaredDistance := 9 }).1.previousPinchSquaredDistance = 0 ∧
      (_pointerInput ⟨false, false, false⟩ ⟨PointerEventTypes.POINTERUP, default⟩ { initialCameraPointersState with previousPinchSquaredDistance := 9 }).1.previousMultiTouchPanPosition = none ∧
      (({ initialCameraPointersState with previousPinchSquaredDistance := 9 } : CameraPointersState).previousPinchSquaredDistance = 0 ∧ ({ initialCameraPointersState with previousPinchSquaredDistance := 9 } : CameraPointersState).previousMultiTouchPanPosition = none →
        SysInv (_pointerInput ⟨false, false, false⟩ ⟨PointerEventTypes.POINTERUP, default⟩ { initialCameraPointersState with previousPinchSquaredDistance := 9 }).1.inner
          (([] : List QEntry) ++ [QEntry.buttonUp ⟨default⟩])) ∧
      (¬(({ initialCameraPointersState with previousPinchSquaredDistance := 9 } : CameraPointersState).previousPinchSquaredDistance = 0 ∧ ({ initialCameraPointersState with previousPinchSquaredDistance := 9 } : CameraPointersState).previousMultiTouchPanPosition = none) →
        (∀ e, ([] : List QEntry).getLast? ≠ some (QEntry.multiTouch e)) →
        ∃ a b, SysInv (_pointerInput ⟨false, false, false⟩ ⟨PointerEventTypes.POINTERUP, default⟩ { initialCameraPointersState with previousPinchSquaredDistance := 9 }).1.inner
          (([] : List QEntry) ++ [QEntry.multiTouch ⟨a, b, ({ initialCameraPointersState with previousPinchSquaredDistance := 9 } : CameraPointersState).inner._previousPinchSquaredDistance, 0, ({ initialCameraPointersState with previousPinchSquaredDistance := 9 } : CameraPointersState).inner._previousMultiTouchPanPosition, none⟩, QEntry.buttonUp ⟨default⟩])) ∧
      (¬(({ initialCameraPointersState with previousPinchSquaredDistance := 9 } : CameraPointersState).previousPinchSquaredDistance = 0 ∧ ({ initialCameraPointersState with previousPinchSquaredDistance := 9 } : CameraPointersState).previousMultiTouchPanPosition = none) →
        ∀ ys e, ([] : List QEntry) = ys ++ [QEntry.multiTouch e] →
        ∃ a b, SysInv (_pointerInput ⟨false, false, false⟩ ⟨PointerEventTypes.POINTERUP, default⟩ { initialCameraPointersState with previousPinchSquaredDistance := 9 }).1.inner
          (ys ++ [QEntry.multiTouch ⟨a, b, e.previousPinchSquaredDistance, e.pinchSquaredDistance, e.previousMultiTouchPanPosition, none⟩, QEntry.buttonUp ⟨default⟩]))) :=
  ⟨rfl, rfl, by decide, by decide, by decide,
    C10_buttonup_pinch_end ⟨false, false, false⟩ default
      { initialCameraPointersState with previousPinchSquaredDistance := 9 } []
      rfl rfl (by decide) (by decide) (by decide)⟩
